import Mathlib

/-!
Verification development for `sync_net_dir.py`: a one-way directory mirroring
tool consisting of a planning phase (`SyncPlanner.plan`, which walks the
source tree, prunes excluded directories and classifies every surviving file
as ADD/UPDATE/SKIP/EXCLUDE) and an apply phase (`SyncApplier.apply`, which
copies ADD/UPDATE items via a temporary `.part` file and an atomic rename).

The filesystem is modelled shallowly: the source tree is an inductive tree of
named directories and files carrying the result of `os.stat` (size and
mtime, or an error), the destination is a map from paths (lists of segments)
to optional stat results, and the applier acts on an explicit destination
state with injectable failures for the copy, timestamp and rename steps.
Paths are lists of name segments; a planner holds absolute roots as segment
lists and items carry absolute paths, as in the script.
-/

/-! ## String helpers modelling the Python primitives used by the script -/

/-- Model of `str.lower` for a single character (ASCII case folding, which is
what the script's inputs exercise). -/
def lowerChar (c : Char) : Char :=
  if 65 ≤ c.toNat ∧ c.toNat ≤ 90 then Char.ofNat (c.toNat + 32) else c

/-- Model of Python `str.lower`. -/
def strLower (s : String) : String := String.mk (s.data.map lowerChar)

/-- Model of `str.replace("/", "\\")` (single-character replacement, hence a
character-wise map). -/
def slashToBackslash (s : String) : String :=
  String.mk (s.data.map (fun c => if c = '/' then '\\' else c))

/-- Join path segments with the Windows separator, as `str(Path(...))`
followed by `replace("/", "\\")` produces in the script. -/
def joinBS : List String → String
  | [] => ""
  | [s] => s
  | s :: rest => s ++ "\\" ++ joinBS rest

/-- Model of Python `str.startswith`. -/
def strStartsWith (s pre : String) : Bool := pre.data.isPrefixOf s.data

/-! ## Model of `fnmatch.fnmatch`

The script matches lowercased filenames against lowercased glob patterns.
`fnmatch` compiles a pattern into units (`*`, `?`, character classes with
optional `!` negation and ranges, literal characters; an unterminated `[` is
a literal) and matches the whole name. The matcher is written with an
explicit fuel argument so that it is structurally recursive; the fuel chosen
by `fnmatch` is always sufficient because every step consumes a token or a
character. -/

/-- One compiled unit of a glob pattern. -/
inductive GlobTok where
  | star
  | any
  | cls (neg : Bool) (ranges : List (Char × Char))
  | lit (c : Char)
deriving DecidableEq

/-- Split the characters after `[` (and after an optional leading `!` and
literal `]`) into the class body and the remainder after the closing `]`. -/
def splitClassBody : List Char → Option (List Char × List Char)
  | [] => none
  | ']' :: t => some ([], t)
  | c :: t => (splitClassBody t).map (fun br => (c :: br.1, br.2))

/-- Interpret a class body as a list of character ranges; `a-z` is a range,
anything else stands for itself (a trailing `-` is literal). -/
def classRanges : List Char → List (Char × Char)
  | [] => []
  | [c] => [(c, c)]
  | c :: '-' :: d :: rest => (c, d) :: classRanges rest
  | c :: rest => (c, c) :: classRanges rest

/-- Tokenize a glob pattern (models `fnmatch.translate`'s pattern scan). -/
def globTokens : Nat → List Char → List GlobTok
  | 0, _ => []
  | _ + 1, [] => []
  | fuel + 1, '*' :: rest => GlobTok.star :: globTokens fuel rest
  | fuel + 1, '?' :: rest => GlobTok.any :: globTokens fuel rest
  | fuel + 1, '[' :: rest =>
    let negR : Bool × List Char :=
      match rest with
      | '!' :: t => (true, t)
      | _ => (false, rest)
    let parsed : Option (List Char × List Char) :=
      match negR.2 with
      | ']' :: t => (splitClassBody t).map (fun br => (']' :: br.1, br.2))
      | _ => splitClassBody negR.2
    match parsed with
    | some (body, r2) => GlobTok.cls negR.1 (classRanges body) :: globTokens fuel r2
    | none => GlobTok.lit '[' :: globTokens fuel rest
  | fuel + 1, c :: rest => GlobTok.lit c :: globTokens fuel rest

/-- Membership of a character in a (possibly negated) class. -/
def matchClass (neg : Bool) (ranges : List (Char × Char)) (c : Char) : Bool :=
  let inSet := ranges.any (fun r => r.1 ≤ c ∧ c ≤ r.2)
  if neg then !inSet else inSet

/-- Match compiled glob tokens against characters. -/
def globMatch : Nat → List GlobTok → List Char → Bool
  | 0, _, _ => false
  | _ + 1, [], s => s.isEmpty
  | fuel + 1, GlobTok.star :: ts, s =>
    globMatch fuel ts s ||
      (match s with
       | [] => false
       | _ :: s2 => globMatch fuel (GlobTok.star :: ts) s2)
  | fuel + 1, GlobTok.any :: ts, s =>
    match s with
    | [] => false
    | _ :: s2 => globMatch fuel ts s2
  | fuel + 1, GlobTok.cls neg ranges :: ts, s =>
    match s with
    | [] => false
    | c :: s2 => matchClass neg ranges c && globMatch fuel ts s2
  | fuel + 1, GlobTok.lit a :: ts, s =>
    match s with
    | [] => false
    | c :: s2 => a == c && globMatch fuel ts s2

/-- Model of `fnmatch.fnmatch name pat` as called by the script (both sides
already lowercased by the caller, so case normalization is the identity). -/
def fnmatch (name pat : String) : Bool :=
  let toks := globTokens pat.data.length pat.data
  globMatch (toks.length + name.data.length + 1) toks name.data

/-! ## Data model -/

/-- Result of `os.stat` on a file: size and modification time (seconds), or
an `OSError` message. -/
inductive FileStat where
  | ok (size : Nat) (mtime : Int)
  | err (msg : String)
deriving DecidableEq

mutual
/-- A snapshot of the source directory tree as enumerated by `os.walk`:
each directory holds named subdirectories and named files with their stat
results. `SrcDirs` is a specialized list so that all recursion over trees is
structural. The `unlistable` constructor models a directory whose listing
(`os.scandir` inside `os.walk`) raises `OSError`: since `plan` calls
`os.walk` with its default `onerror=None`, such a directory produces no
`(dirpath, dirnames, filenames)` triple at all, so the walk emits nothing
for it or its subtree. -/
inductive SrcTree where
  | node (dirs : SrcDirs) (files : List (String × FileStat))
  | unlistable
/-- The named subdirectories of a directory. -/
inductive SrcDirs where
  | nil
  | cons (name : String) (sub : SrcTree) (rest : SrcDirs)
end

/-- Subdirectory list of a tree node (empty for an unlistable directory:
the walk never sees its entries). -/
def SrcTree.dirs : SrcTree → SrcDirs
  | .node ds _ => ds
  | .unlistable => .nil

/-- File list of a tree node (empty for an unlistable directory). -/
def SrcTree.files : SrcTree → List (String × FileStat)
  | .node _ fs => fs
  | .unlistable => []

mutual
/-- Subdirectories of a tree as an ordinary list. -/
def SrcTree.dirsList : SrcTree → List (String × SrcTree)
  | .node ds _ => SrcDirs.toList ds
  | .unlistable => []
/-- Convert a `SrcDirs` spine to an ordinary list. -/
def SrcDirs.toList : SrcDirs → List (String × SrcTree)
  | .nil => []
  | .cons n sub rest => (n, sub) :: SrcDirs.toList rest
end

mutual
/-- Well-formedness of a filesystem snapshot: within each directory the
subdirectory names and file names are distinct (as a real filesystem
guarantees), recursively. -/
def SrcTree.wf : SrcTree → Bool
  | .node ds fs =>
    decide (((SrcDirs.toList ds).map Prod.fst ++ fs.map Prod.fst).Nodup) && SrcDirs.wfAll ds
  | .unlistable => true
/-- All subtrees in a `SrcDirs` spine are well-formed. -/
def SrcDirs.wfAll : SrcDirs → Bool
  | .nil => true
  | .cons _ sub rest => SrcTree.wf sub && SrcDirs.wfAll rest
end

/-- The destination filesystem as consulted by the planner: `none` means no
file exists at the path (`Path.exists` is false); `some` carries the result
of `os.stat` on the existing destination file. -/
def DstFS : Type := List String → Option FileStat

/-- Exclude rules container (the `Excludes` dataclass). -/
structure Excludes where
  root_dirs : List String
  recursive_dirs : List String
  file_patterns : List String
  specific_paths : List String

/-- Normalization applied by `JobConfig.from_yaml` to each entry of
`specific_paths`: forward slashes become backslashes and the string is
lowercased. -/
def normSpecific (p : String) : String := strLower (slashToBackslash p)

/-- Normalization applied by `JobConfig.from_yaml` to the `excludes`
section: `root_dirs` and `recursive_dirs` entries are lowercased,
`file_patterns` kept as given, `specific_paths` normalized. (The script
stores the name sets as Python sets; only membership is ever used, so lists
are an adequate model.) -/
def Excludes.fromConfig (root_dirs recursive_dirs file_patterns specific_paths :
    List String) : Excludes :=
  { root_dirs := root_dirs.map strLower
    recursive_dirs := recursive_dirs.map strLower
    file_patterns := file_patterns
    specific_paths := specific_paths.map normSpecific }

/-- Planned file operation (the `PlanItem` dataclass); `action` is one of
"ADD", "UPDATE", "SKIP", "EXCLUDE". -/
structure PlanItem where
  action : String
  src : List String
  dst : List String
  reason : String
deriving DecidableEq

/-- Planner state after `SyncPlanner.__init__`: resolved roots and the
exclusion data, with `file_patterns` lowercased. -/
structure SyncPlanner where
  src_root : List String
  dst_root : List String
  root_excl : List String
  rec_excl : List String
  file_patterns : List String
  specific_excl : List String

/-- Build a planner from resolved roots and an `Excludes` value, mirroring
`SyncPlanner.__init__` (which lowercases the file patterns). -/
def SyncPlanner.ofConfig (src_root dst_root : List String) (ex : Excludes) :
    SyncPlanner :=
  { src_root := src_root
    dst_root := dst_root
    root_excl := ex.root_dirs
    rec_excl := ex.recursive_dirs
    file_patterns := ex.file_patterns.map strLower
    specific_excl := ex.specific_paths }

/-! ## Planner -/

/-- The lowercase backslash-joined form of a root-relative directory path
(`SyncPlanner._rel_str`); the relative path of the root itself prints as
".". -/
def SyncPlanner.rel_str (rel : List String) : String :=
  strLower (slashToBackslash (match rel with | [] => "." | _ => joinBS rel))

/-- Whether a root-relative directory equals or lies under one of the
`specific_paths` entries (`SyncPlanner._is_under_specific`): equality, or a
string prefix extended by a separator. -/
def SyncPlanner.is_under_specific (p : SyncPlanner) (rel : List String) : Bool :=
  let s := SyncPlanner.rel_str rel
  p.specific_excl.any (fun sp => s == sp || strStartsWith s (sp ++ "\\"))

/-- Whether a lowercased filename matches one of the (lowercased) file
patterns (`SyncPlanner._is_file_excluded`). -/
def SyncPlanner.is_file_excluded (p : SyncPlanner) (name : String) : Bool :=
  let n := strLower name
  p.file_patterns.any (fun pat => fnmatch n pat)

/-- Decision for one file (`SyncPlanner._decide`): source stat failure gives
EXCLUDE, a missing destination gives ADD, destination stat failure gives
UPDATE, and otherwise sizes are compared exactly and mtimes within a
tolerance of 2 seconds. -/
def SyncPlanner.decide_action : FileStat → Option FileStat → String × String
  | FileStat.err e, _ => ("EXCLUDE", "unreadable: " ++ e)
  | FileStat.ok _ _, none => ("ADD", "missing")
  | FileStat.ok _ _, some (FileStat.err e) => ("UPDATE", "dst unreadable: " ++ e)
  | FileStat.ok s_size s_mtime, some (FileStat.ok d_size d_mtime) =>
    let size_same : Bool := s_size == d_size
    let mtime_same : Bool := decide ((s_mtime - d_mtime).natAbs ≤ 2)
    if size_same && mtime_same then ("SKIP", "same size+mtime")
    else ("UPDATE",
      "size " ++ (if size_same then "=" else "≠") ++
      ", mtime " ++ (if mtime_same then "=" else "≠"))

/-- The item emitted for one file of the current directory: an EXCLUDE with
reason "pattern" when the name matches a file pattern (in which case neither
the source nor the destination is consulted), otherwise the `_decide`
classification against the destination path. -/
def SyncPlanner.fileItem (p : SyncPlanner) (dfs : DstFS) (rel : List String)
    (fname : String) (st : FileStat) : PlanItem :=
  let src_file := p.src_root ++ rel ++ [fname]
  let dst_file := p.dst_root ++ rel ++ [fname]
  if p.is_file_excluded fname then
    ⟨"EXCLUDE", src_file, dst_file, "pattern"⟩
  else
    let ar := SyncPlanner.decide_action st (dfs dst_file)
    ⟨ar.1, src_file, dst_file, ar.2⟩

/-- Whether a child directory named `n` of the directory at `rel` is removed
from traversal: at the root level by `root_dirs`, at every level by
`recursive_dirs` (both matched on the lowercased name). -/
def SyncPlanner.dirExcludedAt (p : SyncPlanner) (rel : List String) (n : String) :
    Bool :=
  (decide (rel = []) && decide (strLower n ∈ p.root_excl)) ||
    decide (strLower n ∈ p.rec_excl)

/-- The root-level removals of the walk step at `rel` (empty below the
root): children whose lowercased name is in `root_dirs`. -/
def rootRemovedL (p : SyncPlanner) (rel : List String)
    (dl : List (String × SrcTree)) : List (String × SrcTree) :=
  if rel = [] then dl.filter (fun d => decide (strLower d.1 ∈ p.root_excl)) else []

/-- The children surviving the root-level filter. -/
def afterRootL (p : SyncPlanner) (rel : List String)
    (dl : List (String × SrcTree)) : List (String × SrcTree) :=
  if rel = [] then dl.filter (fun d => !decide (strLower d.1 ∈ p.root_excl)) else dl

/-- Children removed by the recursive-name filter (after the root filter). -/
def recRemovedL (p : SyncPlanner) (dl : List (String × SrcTree)) :
    List (String × SrcTree) :=
  dl.filter (fun d => decide (strLower d.1 ∈ p.rec_excl))

mutual
/-- One step of the pruned `os.walk` traversal of `SyncPlanner.plan` at the
directory `rel` (relative to the source root): a directory under a
`specific_paths` entry is recorded once and pruned entirely; otherwise the
removed root-level and recursive names are recorded, each file is
classified, and the surviving children are visited in order. A directory
whose listing fails contributes nothing: `os.walk` runs with its default
`onerror=None`, so no triple is yielded for it (not even the
`specific_path` check runs, since the loop body never executes), and the
walk silently moves on. -/
def planDir (p : SyncPlanner) (dfs : DstFS) (rel : List String) :
    SrcTree → List PlanItem
  | .unlistable => []
  | .node ds fs =>
    if SyncPlanner.is_under_specific p rel then
      [⟨"EXCLUDE", p.src_root ++ rel, p.dst_root ++ rel, "specific_path"⟩]
    else
      let dl := SrcDirs.toList ds
      ((rootRemovedL p rel dl).map (fun d =>
          ⟨"EXCLUDE", p.src_root ++ rel ++ [d.1], p.dst_root ++ [d.1], "root_dir"⟩)) ++
      ((recRemovedL p (afterRootL p rel dl)).map (fun d =>
          ⟨"EXCLUDE", p.src_root ++ rel ++ [d.1], p.dst_root ++ rel ++ [d.1],
            "recursive_dir"⟩)) ++
      (fs.map (fun f => SyncPlanner.fileItem p dfs rel f.1 f.2)) ++
      walkDirs p dfs rel ds
/-- Visit the children of the directory at `rel` in order, skipping the
names removed from `dirnames`. -/
def walkDirs (p : SyncPlanner) (dfs : DstFS) (rel : List String) :
    SrcDirs → List PlanItem
  | .nil => []
  | .cons n sub rest =>
    (if SyncPlanner.dirExcludedAt p rel n then []
     else planDir p dfs (rel ++ [n]) sub) ++ walkDirs p dfs rel rest
end

/-- The whole plan (`SyncPlanner.plan`): a missing source root aborts with a
"Source not found" error before any item is produced; otherwise the walk
starting at the root yields the item list. -/
def SyncPlanner.plan (p : SyncPlanner) (dfs : DstFS) (src : Option SrcTree) :
    Except String (List PlanItem) :=
  match src with
  | none => Except.error ("Source not found: " ++ joinBS p.src_root)
  | some t => Except.ok (planDir p dfs [] t)

/-! ## Applier -/

/-- A destination file during/after the apply phase: a complete copy with a
size and mtime, or a half-written file abandoned by a failed copy. -/
inductive DEntry where
  | full (size : Nat) (mtime : Int)
  | broken
deriving DecidableEq

/-- View a destination entry as the stat result a later planner run sees. -/
def DEntry.toStat : DEntry → FileStat
  | .full size mtime => FileStat.ok size mtime
  | .broken => FileStat.err "broken"

/-- Destination filesystem state during the apply phase: files and the set
of existing directories. -/
structure FS where
  files : List String → Option DEntry
  dirs : List String → Bool

/-- The destination view a later planner run has of an applied state. -/
def FS.toDstFS (fs : FS) : DstFS := fun q => (fs.files q).map DEntry.toStat

/-- Set or clear one file entry. -/
def FS.setFile (fs : FS) (q : List String) (v : Option DEntry) : FS :=
  { fs with files := fun r => if r = q then v else fs.files r }

/-- Model of `if os.path.exists(temp): os.remove(temp)`. -/
def FS.removeIfExists (fs : FS) (q : List String) : FS :=
  match fs.files q with
  | some _ => fs.setFile q none
  | none => fs

/-- Model of `dst.parent.mkdir(parents=True, exist_ok=True)`. -/
def FS.mkdirParents (fs : FS) (dst : List String) : FS :=
  { fs with dirs := fun q => fs.dirs q || q.isPrefixOf dst.dropLast }

/-- The temporary sibling path used by the applier: the destination name
suffixed with ".part" (`dst.with_suffix(dst.suffix + ".part")`). -/
def tempName : List String → List String
  | [] => [".part"]
  | [x] => [x ++ ".part"]
  | x :: rest => x :: tempName rest

/-- Error raised by a copy/timestamp/rename step: `PermissionError` or any
other `OSError`. The script catches the two separately (Python's
`PermissionError` is the more specific class), so the kind survives to the
caller. -/
inductive ApplyErr where
  | perm (msg : String)
  | io (msg : String)
deriving DecidableEq

/-- Environment of one apply run: the source stat results (consulted for the
copied size and for `os.utime`), injectable failures for the copy (by source
path), timestamp (by temp path) and rename (by destination path) steps, and
the wall-clock mtime a fresh copy receives when timestamps are not
preserved. -/
structure ApplyEnv where
  srcStat : List String → Option (Nat × Int)
  copyFail : List String → Option ApplyErr
  utimeFail : List String → Option ApplyErr
  renameFail : List String → Option ApplyErr
  copyMtime : Int

/-- Apply a single ADD/UPDATE item (the body of the loop in
`SyncApplier.apply`): create the destination's parents, copy the source
bytes to the temporary sibling, optionally stamp the source's mtime onto it,
then atomically rename it onto the destination; on any error the temporary
file is removed if present and the error is re-raised with the state of the
cleanup. -/
def SyncApplier.applyOne (env : ApplyEnv) (preserve_mtime : Bool)
    (it : PlanItem) (fs0 : FS) : Except (ApplyErr × FS) FS :=
  let fs := fs0.mkdirParents it.dst
  let temp := tempName it.dst
  match env.copyFail it.src with
  | some e =>
    Except.error (e, ((fs.setFile temp (some DEntry.broken)).removeIfExists temp))
  | none =>
    match env.srcStat it.src with
    | none =>
      Except.error (ApplyErr.io "copyfile: source unreadable",
        ((fs.setFile temp (some DEntry.broken)).removeIfExists temp))
    | some m =>
      let fs1 := fs.setFile temp (some (DEntry.full m.1 env.copyMtime))
      match (if preserve_mtime then env.utimeFail temp else none) with
      | some e => Except.error (e, fs1.removeIfExists temp)
      | none =>
        let fs2 := if preserve_mtime then
            fs1.setFile temp (some (DEntry.full m.1 m.2)) else fs1
        match env.renameFail it.dst with
        | some e => Except.error (e, fs2.removeIfExists temp)
        | none =>
          Except.ok ((fs2.setFile it.dst (fs2.files temp)).setFile temp none)

/-- The apply loop (`SyncApplier.apply`): SKIP and EXCLUDE items are
no-ops; other items are applied in order; the first failure aborts the rest,
propagating the error and the cleaned-up state. -/
def SyncApplier.apply (env : ApplyEnv) (preserve_mtime : Bool) :
    List PlanItem → FS → Except (ApplyErr × FS) FS
  | [], fs => Except.ok fs
  | it :: rest, fs =>
    if it.action = "SKIP" ∨ it.action = "EXCLUDE" then
      SyncApplier.apply env preserve_mtime rest fs
    else
      match SyncApplier.applyOne env preserve_mtime it fs with
      | Except.error ef => Except.error ef
      | Except.ok fs1 => SyncApplier.apply env preserve_mtime rest fs1

/-- Message printed by `main` when the apply phase aborts, one text per
error kind (lines 365-370 of the script). -/
def main_apply_message : ApplyErr → String
  | ApplyErr.perm e => "Copy aborted (permission/lock error): " ++ e
  | ApplyErr.io e => "Copy aborted (I/O error): " ++ e

/-- The children of the directory at `rel` that survive both name filters
and are therefore descended into by the walk. -/
def keptDirsL (p : SyncPlanner) (rel : List String) (t : SrcTree) :
    List (String × SrcTree) :=
  (SrcDirs.toList t.dirs).filter (fun d => !p.dirExcludedAt rel d.1)

/-- The walk of `SyncPlanner.plan` over the snapshot `t0` reaches the
directory `t` at the root-relative path `rel`: the root itself is reached,
and every surviving child of a reached directory that is not pruned as a
specific path is reached. -/
inductive Visits (p : SyncPlanner) (t0 : SrcTree) : List String → SrcTree → Prop where
  | root : Visits p t0 [] t0
  | child {rel t n sub} : Visits p t0 rel t →
      SyncPlanner.is_under_specific p rel = false →
      (n, sub) ∈ keptDirsL p rel t →
      Visits p t0 (rel ++ [n]) sub

/-! ## Concrete sample data used to exercise the definitions -/

/-- A sample planner: roots `SRC`/`DST`, root-only exclusion `node_modules`,
recursive exclusion `build`, file pattern `*.o`, specific path
`scripts\output`. -/
def sampleP : SyncPlanner :=
  SyncPlanner.ofConfig ["SRC"] ["DST"]
    (Excludes.fromConfig ["node_modules"] ["Build"] ["*.o"] ["scripts\\output"])

/-- A sample source snapshot exercising all exclusion layers. -/
def sampleSrcTree : SrcTree :=
  SrcTree.node
    (SrcDirs.cons "node_modules"
      (SrcTree.node SrcDirs.nil [("x.js", FileStat.ok 1 1)])
      (SrcDirs.cons "scripts"
        (SrcTree.node
          (SrcDirs.cons "output"
            (SrcTree.node SrcDirs.nil [("log.txt", FileStat.ok 5 1)])
            SrcDirs.nil) [])
        (SrcDirs.cons "build"
          (SrcTree.node SrcDirs.nil [("y", FileStat.ok 2 2)])
          SrcDirs.nil)))
    [("a.txt", FileStat.ok 5 100), ("tmp.o", FileStat.ok 3 3),
     ("bad", FileStat.err "eperm")]

/-- A sample destination containing only `DST\a.txt`, one second newer than
the source file. -/
def sampleDst : DstFS := fun q =>
  if q = ["DST", "a.txt"] then some (FileStat.ok 5 101) else none

/-- A planner whose only exclusion is the specific path `scripts\output`
(for the prefix-boundary scenario). -/
def boundaryP : SyncPlanner :=
  SyncPlanner.ofConfig ["SRC"] ["DST"]
    (Excludes.fromConfig [] [] [] ["scripts\\output"])

/-- A source snapshot with the sibling directories `scripts\output` (with a
nested subtree) and `scripts\output2`. -/
def boundarySrcTree : SrcTree :=
  SrcTree.node
    (SrcDirs.cons "scripts"
      (SrcTree.node
        (SrcDirs.cons "output"
          (SrcTree.node
            (SrcDirs.cons "logs"
              (SrcTree.node SrcDirs.nil [("old.log", FileStat.ok 9 9)])
              SrcDirs.nil)
            [("log.txt", FileStat.ok 5 1)])
          (SrcDirs.cons "output2"
            (SrcTree.node SrcDirs.nil [("data.txt", FileStat.ok 3 50)])
            SrcDirs.nil))
        [])
      SrcDirs.nil)
    []

/-- An empty destination. -/
def emptyDst : DstFS := fun _ => none

/-- A planner with only the root-only exclusion `node_modules` (for the
root-scoping scenario). -/
def rootScopeP : SyncPlanner :=
  SyncPlanner.ofConfig ["SRC"] ["DST"]
    (Excludes.fromConfig ["node_modules"] [] [] [])

/-- A source snapshot with `node_modules` both at the root and nested under
`a`. -/
def rootScopeSrcTree : SrcTree :=
  SrcTree.node
    (SrcDirs.cons "node_modules"
      (SrcTree.node SrcDirs.nil [("x.js", FileStat.ok 1 1)])
      (SrcDirs.cons "a"
        (SrcTree.node
          (SrcDirs.cons "node_modules"
            (SrcTree.node SrcDirs.nil [("y.js", FileStat.ok 2 2)])
            SrcDirs.nil)
          [])
        SrcDirs.nil))
    []

/-- A sample apply environment with no injected failures: every source file
stats as 5 bytes at mtime 100, fresh copies land at mtime 900. -/
def cleanEnv : ApplyEnv :=
  { srcStat := fun _ => some (5, 100)
    copyFail := fun _ => none
    utimeFail := fun _ => none
    renameFail := fun _ => none
    copyMtime := 900 }

/-- An empty destination state for the applier. -/
def emptyFS : FS := { files := fun _ => none, dirs := fun _ => false }

/-- A sample ADD item. -/
def sampleAddItem : PlanItem :=
  ⟨"ADD", ["SRC", "a.txt"], ["DST", "a.txt"], "missing"⟩

/-- The destination state after applying the sample ADD item in the clean
environment. -/
def sampleAppliedFS : FS :=
  match SyncApplier.apply cleanEnv true [sampleAddItem] emptyFS with
  | Except.ok fs2 => fs2
  | Except.error e => e.2

/-- An environment whose copy step always fails with a permission error. -/
def lockedEnv : ApplyEnv :=
  { cleanEnv with copyFail := fun _ => some (ApplyErr.perm "locked") }

/-- An environment whose rename step always fails with a generic I/O
error. -/
def diskFullEnv : ApplyEnv :=
  { cleanEnv with renameFail := fun _ => some (ApplyErr.io "disk full") }

/-- A planner with no exclusions configured at all. -/
def plainP : SyncPlanner :=
  SyncPlanner.ofConfig ["SRC"] ["DST"] (Excludes.fromConfig [] [] [] [])

/-- A source snapshot whose only entry is the subdirectory `data`, which
exists (the root's listing names it) but cannot itself be listed: its
`os.scandir` raises an `OSError`. -/
def unlistableSrcTree : SrcTree :=
  SrcTree.node (SrcDirs.cons "data" SrcTree.unlistable SrcDirs.nil) []

/-- A source snapshot holding the sibling files `b.part` and `b`, in walk
order: the destination path of `b.part` coincides with the temporary path
`Path("b").with_suffix("" + ".part")` used while applying `b`. -/
def collideSrcTree : SrcTree :=
  SrcTree.node SrcDirs.nil
    [("b.part", FileStat.ok 3 50), ("b", FileStat.ok 5 100)]

/-- An apply environment with no injected failures whose source stats agree
with `collideSrcTree`. -/
def collideEnv : ApplyEnv :=
  { srcStat := fun q =>
      if q = ["SRC", "b.part"] then some (3, 50)
      else if q = ["SRC", "b"] then some (5, 100) else none
    copyFail := fun _ => none
    utimeFail := fun _ => none
    renameFail := fun _ => none
    copyMtime := 900 }

/-- The destination state after applying the plan of `collideSrcTree`
against an empty destination with mtime preservation. -/
def collideAppliedFS : FS :=
  match SyncApplier.apply collideEnv true
      (planDir plainP emptyDst [] collideSrcTree) emptyFS with
  | Except.ok fs2 => fs2
  | Except.error e => e.2

/-! ## General lemmas about the planner's traversal -/

/-- Source and destination paths of a file item, independent of the branch
taken. -/
theorem fileItem_src_dst (p : SyncPlanner) (dfs : DstFS) (rel : List String)
    (fname : String) (st : FileStat) :
    (SyncPlanner.fileItem p dfs rel fname st).src = p.src_root ++ rel ++ [fname] ∧
      (SyncPlanner.fileItem p dfs rel fname st).dst = p.dst_root ++ rel ++ [fname] := by
  unfold SyncPlanner.fileItem
  by_cases h : p.is_file_excluded fname = true <;> simp [h]

/-- Membership in `rootRemovedL` forces the root level. -/
theorem rootRemovedL_rel (p : SyncPlanner) (rel : List String)
    (dl : List (String × SrcTree)) (d : String × SrcTree)
    (h : d ∈ rootRemovedL p rel dl) : rel = [] := by
  unfold rootRemovedL at h
  by_cases hrel : rel = []
  · exact hrel
  · simp [hrel] at h

mutual
/-- Every emitted item's source and destination paths extend the respective
roots by the same relative path. -/
theorem planDir_shape (p : SyncPlanner) (dfs : DstFS) (rel : List String)
    (t : SrcTree) :
    ∀ item ∈ planDir p dfs rel t,
      ∃ q, item.src = p.src_root ++ rel ++ q ∧ item.dst = p.dst_root ++ rel ++ q := by
  cases t with
  | unlistable => intro item hmem; simp [planDir] at hmem
  | node ds fs =>
    intro item hmem
    by_cases hs : SyncPlanner.is_under_specific p rel = true
    · simp [planDir, hs] at hmem
      subst hmem
      exact ⟨[], by simp⟩
    · rw [Bool.not_eq_true] at hs
      simp only [planDir, hs, Bool.false_eq_true, if_false, List.mem_append] at hmem
      rcases hmem with ((hroot | hrec) | hfile) | hwalk
      · obtain ⟨d, hd, hitem⟩ := List.mem_map.mp hroot
        have hrel : rel = [] := rootRemovedL_rel p rel _ d hd
        subst hrel
        subst hitem
        exact ⟨[d.1], by simp⟩
      · obtain ⟨d, hd, hitem⟩ := List.mem_map.mp hrec
        subst hitem
        exact ⟨[d.1], by simp⟩
      · obtain ⟨f, hf, hitem⟩ := List.mem_map.mp hfile
        subst hitem
        obtain ⟨h1, h2⟩ := fileItem_src_dst p dfs rel f.1 f.2
        exact ⟨[f.1], h1, h2⟩
      · obtain ⟨n, q, _, _, h1, h2⟩ := walkDirs_shape p dfs rel ds item hwalk
        exact ⟨n :: q, by simpa using h1, by simpa using h2⟩
/-- Every item produced below a directory comes from one of its surviving
children and extends that child's path. -/
theorem walkDirs_shape (p : SyncPlanner) (dfs : DstFS) (rel : List String)
    (ds : SrcDirs) :
    ∀ item ∈ walkDirs p dfs rel ds,
      ∃ n q, n ∈ (SrcDirs.toList ds).map Prod.fst ∧
        p.dirExcludedAt rel n = false ∧
        item.src = p.src_root ++ rel ++ [n] ++ q ∧
        item.dst = p.dst_root ++ rel ++ [n] ++ q := by
  cases ds with
  | nil => intro item hmem; simp [walkDirs] at hmem
  | cons n sub rest =>
    intro item hmem
    simp only [walkDirs, List.mem_append] at hmem
    rcases hmem with hleft | hright
    · by_cases he : p.dirExcludedAt rel n = true
      · simp [he] at hleft
      · rw [Bool.not_eq_true] at he
        rw [if_neg (by simp [he])] at hleft
        obtain ⟨q, h1, h2⟩ := planDir_shape p dfs (rel ++ [n]) sub item hleft
        exact ⟨n, q, by simp [SrcDirs.toList], he,
          by simpa [List.append_assoc] using h1,
          by simpa [List.append_assoc] using h2⟩
    · obtain ⟨n2, q, hn2, he, h1, h2⟩ := walkDirs_shape p dfs rel rest item hright
      exact ⟨n2, q, by simp [SrcDirs.toList]; right; simpa using hn2, he, h1, h2⟩
end

/-! ## Claims C10, C2, C3, C9 -/

/-- C10: every item the planner emits satisfies the path correspondence
invariant: its destination path is the destination root followed by exactly
the part of its source path beyond the source root, for file items and for
pruned-directory items alike, so every path the applier can write lies
under the destination root. -/
theorem C10_path_correspondence (p : SyncPlanner) (dfs : DstFS) (t : SrcTree) :
    ∀ item ∈ planDir p dfs [] t,
      ∃ q, item.src = p.src_root ++ q ∧ item.dst = p.dst_root ++ q := by
  intro item hmem
  obtain ⟨q, h1, h2⟩ := planDir_shape p dfs [] t item hmem
  exact ⟨q, by simpa using h1, by simpa using h2⟩

/-- Witness for C10 at the sample data. -/
theorem C10_path_correspondence_witness :
    ∃ q, (⟨"EXCLUDE", ["SRC", "node_modules"], ["DST", "node_modules"],
        "root_dir"⟩ : PlanItem).src = sampleP.src_root ++ q ∧
      (⟨"EXCLUDE", ["SRC", "node_modules"], ["DST", "node_modules"],
        "root_dir"⟩ : PlanItem).dst = sampleP.dst_root ++ q :=
  C10_path_correspondence sampleP sampleDst sampleSrcTree _ (by decide)

/-- The decision for a readable source and readable destination is SKIP
exactly when the sizes agree and the mtimes differ by at most 2 seconds. -/
theorem decide_action_skip_iff (s : Nat) (m : Int) (s2 : Nat) (m2 : Int) :
    SyncPlanner.decide_action (FileStat.ok s m) (some (FileStat.ok s2 m2)) =
      ("SKIP", "same size+mtime") ↔ (s = s2 ∧ (m - m2).natAbs ≤ 2) := by
  by_cases h1 : s = s2 <;> by_cases h2 : (m - m2).natAbs ≤ 2 <;>
    simp [SyncPlanner.decide_action, h1, h2, Prod.ext_iff,
      (by decide : ("UPDATE" : String) ≠ "SKIP")]

/-- The decision for a readable source and readable destination that are not
same-size-and-close-mtime is UPDATE, with the reason naming the differing
comparisons. -/
theorem decide_action_update_eq (s : Nat) (m : Int) (s2 : Nat) (m2 : Int)
    (h : ¬(s = s2 ∧ (m - m2).natAbs ≤ 2)) :
    SyncPlanner.decide_action (FileStat.ok s m) (some (FileStat.ok s2 m2)) =
      ("UPDATE", "size " ++ (if s = s2 then "=" else "≠") ++ ", mtime " ++
        (if (m - m2).natAbs ≤ 2 then "=" else "≠")) := by
  by_cases h1 : s = s2
  · by_cases h2 : (m - m2).natAbs ≤ 2
    · exact absurd ⟨h1, h2⟩ h
    · simp [SyncPlanner.decide_action, h1, h2]
  · by_cases h2 : (m - m2).natAbs ≤ 2 <;> simp [SyncPlanner.decide_action, h1, h2]

/-- A string append starts with any prefix of its first factor. -/
theorem strStartsWith_append_left (a b c : String) (h : c.data <+: a.data) :
    strStartsWith (a ++ b) c = true := by
  unfold strStartsWith
  rw [List.isPrefixOf_iff_prefix, String.data_append]
  exact h.trans (List.prefix_append a.data b.data)

/-- C2: the planner's per-file decision table: an unreadable source gives
EXCLUDE with a reason starting "unreadable:"; a missing destination gives
ADD "missing"; an unreadable destination gives UPDATE with a reason starting
"dst unreadable:"; otherwise the item is SKIP "same size+mtime" exactly when
the sizes are equal and the mtimes differ by at most 2 seconds (a difference
of exactly 2 counts as same), and otherwise UPDATE with a reason indicating
which comparison differed. -/
theorem C2_decide_table :
    (∀ e d, SyncPlanner.decide_action (FileStat.err e) d =
        ("EXCLUDE", "unreadable: " ++ e) ∧
      strStartsWith ("unreadable: " ++ e) "unreadable:" = true) ∧
    (∀ s m, SyncPlanner.decide_action (FileStat.ok s m) none = ("ADD", "missing")) ∧
    (∀ s m e, SyncPlanner.decide_action (FileStat.ok s m) (some (FileStat.err e)) =
        ("UPDATE", "dst unreadable: " ++ e) ∧
      strStartsWith ("dst unreadable: " ++ e) "dst unreadable:" = true) ∧
    (∀ s m s2 m2, SyncPlanner.decide_action (FileStat.ok s m) (some (FileStat.ok s2 m2)) =
        ("SKIP", "same size+mtime") ↔ (s = s2 ∧ (m - m2).natAbs ≤ 2)) ∧
    (∀ s m s2 m2, ¬(s = s2 ∧ (m - m2).natAbs ≤ 2) →
      SyncPlanner.decide_action (FileStat.ok s m) (some (FileStat.ok s2 m2)) =
        ("UPDATE", "size " ++ (if s = s2 then "=" else "≠") ++ ", mtime " ++
          (if (m - m2).natAbs ≤ 2 then "=" else "≠"))) ∧
    (∀ s m, SyncPlanner.decide_action (FileStat.ok s m) (some (FileStat.ok s (m - 2))) =
      ("SKIP", "same size+mtime")) ∧
    (∀ s m, SyncPlanner.decide_action (FileStat.ok s m) (some (FileStat.ok s (m - 3))) =
      ("UPDATE", "size =, mtime ≠")) := by
  refine ⟨?_, ?_, ?_, ?_, ?_, ?_, ?_⟩
  · intro e d
    exact ⟨by cases d <;> rfl, strStartsWith_append_left _ _ _ (by decide)⟩
  · intro s m
    rfl
  · intro s m e
    exact ⟨rfl, strStartsWith_append_left _ _ _ (by decide)⟩
  · intro s m s2 m2
    exact decide_action_skip_iff s m s2 m2
  · intro s m s2 m2 h
    exact decide_action_update_eq s m s2 m2 h
  · intro s m
    refine (decide_action_skip_iff s m s (m - 2)).mpr ⟨rfl, by omega⟩
  · intro s m
    have h := decide_action_update_eq s m s (m - 3) (by
      intro hc
      omega)
    rw [h, if_pos rfl, if_neg (by omega)]
    decide

/-- C3: the path-prefix exclusion matches only by equality or proper
segment-prefix on the normalized path, never by raw string prefix: with
`specific_paths = ["scripts\output"]` the sibling `scripts\output2` is not
excluded and its file is planned normally, while `scripts\output` itself is
excluded once with reason "specific_path" and nothing strictly inside it
(such as `scripts\output\logs`) produces any item. -/
theorem C3_specific_path_boundary :
    planDir boundaryP emptyDst [] boundarySrcTree =
      [⟨"EXCLUDE", ["SRC", "scripts", "output"], ["DST", "scripts", "output"],
        "specific_path"⟩,
       ⟨"ADD", ["SRC", "scripts", "output2", "data.txt"],
        ["DST", "scripts", "output2", "data.txt"], "missing"⟩] ∧
    SyncPlanner.is_under_specific boundaryP ["scripts", "output2"] = false ∧
    SyncPlanner.is_under_specific boundaryP ["scripts", "output", "logs"] = true ∧
    (∀ it ∈ planDir boundaryP emptyDst [] boundarySrcTree,
      ¬(["SRC", "scripts", "output"] <+: it.src ∧
        it.src ≠ ["SRC", "scripts", "output"])) ∧
    (∃ it ∈ planDir boundaryP emptyDst [] boundarySrcTree,
      it.src = ["SRC", "scripts", "output2", "data.txt"] ∧ it.action = "ADD") := by
  decide

/-- The two abort messages printed by `main` for the two error kinds always
differ (they disagree at character 14). -/
theorem main_apply_message_distinct (m1 m2 : String) :
    main_apply_message (ApplyErr.perm m1) ≠ main_apply_message (ApplyErr.io m2) := by
  intro h
  unfold main_apply_message at h
  have hd := congrArg String.data h
  rw [String.data_append, String.data_append] at hd
  have h1 : ("Copy aborted (permission/lock error): ".data ++ m1.data)[14]? =
      some 'p' := by
    rw [List.getElem?_append, if_pos (by decide)]
    decide
  have h2 : ("Copy aborted (I/O error): ".data ++ m2.data)[14]? = some 'I' := by
    rw [List.getElem?_append, if_pos (by decide)]
    decide
  rw [hd, h2] at h1
  exact absurd h1 (by decide)

/-- C9: a permission/lock failure in the apply phase propagates to the
caller as a distinct error kind from other I/O failures: the apply loop
re-raises exactly the error the failing step produced (shown for the copy
step and the rename step), the two kinds are distinct values, and the
wrapping `main` prints distinguishable diagnostics for them. -/
theorem C9_error_kinds :
    (∀ (env : ApplyEnv) (pm : Bool) (it : PlanItem) (rest : List PlanItem)
        (fs : FS) (e : ApplyErr),
      ¬(it.action = "SKIP" ∨ it.action = "EXCLUDE") →
      env.copyFail it.src = some e →
      ∃ fs2, SyncApplier.apply env pm (it :: rest) fs = Except.error (e, fs2)) ∧
    (∀ (env : ApplyEnv) (pm : Bool) (it : PlanItem) (rest : List PlanItem)
        (fs : FS) (m : Nat × Int) (e : ApplyErr),
      ¬(it.action = "SKIP" ∨ it.action = "EXCLUDE") →
      env.copyFail it.src = none →
      env.srcStat it.src = some m →
      (if pm then env.utimeFail (tempName it.dst) else none) = none →
      env.renameFail it.dst = some e →
      ∃ fs2, SyncApplier.apply env pm (it :: rest) fs = Except.error (e, fs2)) ∧
    (∀ m1 m2 : String, ApplyErr.perm m1 ≠ ApplyErr.io m2) ∧
    (∀ m1 m2 : String,
      main_apply_message (ApplyErr.perm m1) ≠ main_apply_message (ApplyErr.io m2)) := by
  refine ⟨?_, ?_, ?_, ?_⟩
  · intro env pm it rest fs e hact hcopy
    have hone : SyncApplier.applyOne env pm it fs =
        Except.error (e, ((fs.mkdirParents it.dst).setFile (tempName it.dst)
          (some DEntry.broken)).removeIfExists (tempName it.dst)) := by
      simp [SyncApplier.applyOne, hcopy]
    refine ⟨((fs.mkdirParents it.dst).setFile (tempName it.dst)
      (some DEntry.broken)).removeIfExists (tempName it.dst), ?_⟩
    unfold SyncApplier.apply
    rw [if_neg hact, hone]
  · intro env pm it rest fs m e hact hcopy hstat hutime hrename
    have hone : ∃ fs2, SyncApplier.applyOne env pm it fs = Except.error (e, fs2) := by
      simp only [SyncApplier.applyOne, hcopy, hstat, hutime, hrename]
      exact ⟨_, rfl⟩
    obtain ⟨fs2, hone⟩ := hone
    refine ⟨fs2, ?_⟩
    unfold SyncApplier.apply
    rw [if_neg hact, hone]
  · intro m1 m2 h
    cases h
  · exact main_apply_message_distinct

/-- Witness for C9: a locked destination aborts the apply loop with the
permission kind. -/
theorem C9_error_kinds_witness :
    ∃ fs2, SyncApplier.apply lockedEnv true [sampleAddItem] emptyFS =
      Except.error (ApplyErr.perm "locked", fs2) :=
  C9_error_kinds.1 lockedEnv true sampleAddItem [] emptyFS
    (ApplyErr.perm "locked") (by decide) rfl

/-- Witness for C2: a 3-second mtime difference with equal sizes is
classified UPDATE with the mtime marked as differing. -/
theorem C2_decide_table_witness :
    SyncPlanner.decide_action (FileStat.ok 5 10) (some (FileStat.ok 5 7)) =
      ("UPDATE", "size =, mtime ≠") :=
  C2_decide_table.2.2.2.2.2.2 5 10

/-! ## Toolkit: membership, uniqueness and pruning lemmas -/

/-- In a list whose images under `f` are distinct, filtering for the image
of a member yields exactly that member. -/
theorem filter_eq_singleton_of_nodup_map {α β : Type} [DecidableEq β] (f : α → β)
    (l : List α) (hnd : (l.map f).Nodup) (a : α) (ha : a ∈ l) :
    l.filter (fun y => f y = f a) = [a] := by
  induction l with
  | nil => cases ha
  | cons x xs ih =>
    simp only [List.map_cons, List.nodup_cons] at hnd
    rcases List.mem_cons.mp ha with rfl | hmem
    · have hnil : xs.filter (fun y => f y = f a) = [] := by
        apply List.filter_eq_nil_iff.mpr
        intro b hb
        simp only [decide_eq_true_eq]
        intro hfb
        exact hnd.1 (hfb ▸ List.mem_map_of_mem f hb)
      simp [List.filter_cons, hnil]
    · have hne : f x ≠ f a := by
        intro hfx
        exact hnd.1 (hfx ▸ List.mem_map_of_mem f hmem)
      simp [List.filter_cons, hne, ih hnd.2 hmem]

/-- Unfolding of well-formedness at a node. -/
theorem wf_node_iff (ds : SrcDirs) (fs : List (String × FileStat)) :
    SrcTree.wf (SrcTree.node ds fs) = true ↔
      ((SrcDirs.toList ds).map Prod.fst ++ fs.map Prod.fst).Nodup ∧
        SrcDirs.wfAll ds = true := by
  simp [SrcTree.wf]

/-- Subtrees of a well-formed spine are well-formed. -/
theorem wfAll_sub : ∀ ds : SrcDirs, SrcDirs.wfAll ds = true →
    ∀ n sub, (n, sub) ∈ SrcDirs.toList ds → SrcTree.wf sub = true
  | .nil, _, n, sub, h => by simp [SrcDirs.toList] at h
  | .cons n2 sub2 rest, hwf, n, sub, h => by
    simp only [SrcDirs.wfAll, Bool.and_eq_true] at hwf
    simp only [SrcDirs.toList, List.mem_cons] at h
    rcases h with heq | hmem
    · injection heq with h1 h2
      rw [h2]
      exact hwf.1
    · exact wfAll_sub rest hwf.2 n sub hmem

/-- Members of the root-removal list: they come from the child list, only at
the root, with a root-matched lowercased name. -/
theorem mem_rootRemovedL (p : SyncPlanner) (rel : List String)
    (dl : List (String × SrcTree)) (d : String × SrcTree)
    (h : d ∈ rootRemovedL p rel dl) :
    d ∈ dl ∧ rel = [] ∧ strLower d.1 ∈ p.root_excl := by
  unfold rootRemovedL at h
  by_cases hrel : rel = []
  · rw [if_pos hrel] at h
    have h2 := List.mem_filter.mp h
    exact ⟨h2.1, hrel, by simpa using h2.2⟩
  · rw [if_neg hrel] at h
    cases h

/-- Members of the after-root list come from the child list and, at the
root, have a name not matched by `root_dirs`. -/
theorem mem_afterRootL (p : SyncPlanner) (rel : List String)
    (dl : List (String × SrcTree)) (d : String × SrcTree)
    (h : d ∈ afterRootL p rel dl) :
    d ∈ dl ∧ (rel = [] → ¬ strLower d.1 ∈ p.root_excl) := by
  unfold afterRootL at h
  by_cases hrel : rel = []
  · rw [if_pos hrel] at h
    have h2 := List.mem_filter.mp h
    refine ⟨h2.1, fun _ => ?_⟩
    simpa using h2.2
  · rw [if_neg hrel] at h
    exact ⟨h, fun hc => absurd hc hrel⟩

/-- Members of the recursive-removal list: from the given list, with a
recursive-matched lowercased name. -/
theorem mem_recRemovedL (p : SyncPlanner) (dl : List (String × SrcTree))
    (d : String × SrcTree) (h : d ∈ recRemovedL p dl) :
    d ∈ dl ∧ strLower d.1 ∈ p.rec_excl := by
  have h2 := List.mem_filter.mp h
  exact ⟨h2.1, by simpa using h2.2⟩

/-- A surviving child name is matched by neither name filter. -/
theorem dirExcludedAt_false (p : SyncPlanner) (rel : List String) (n : String)
    (h : p.dirExcludedAt rel n = false) :
    ¬ strLower n ∈ p.rec_excl ∧ (rel = [] → ¬ strLower n ∈ p.root_excl) := by
  unfold SyncPlanner.dirExcludedAt at h
  rw [Bool.or_eq_false_iff] at h
  refine ⟨by simpa using h.2, ?_⟩
  intro hrel
  rw [hrel] at h
  simpa using h.1

/-- Unfolding of one walk step at a directory that is not under a specific
path. -/
theorem planDir_node_eq (p : SyncPlanner) (dfs : DstFS) (rel : List String)
    (ds : SrcDirs) (fs : List (String × FileStat))
    (hs : SyncPlanner.is_under_specific p rel = false) :
    planDir p dfs rel (SrcTree.node ds fs) =
      ((rootRemovedL p rel (SrcDirs.toList ds)).map fun d =>
        (⟨"EXCLUDE", p.src_root ++ rel ++ [d.1], p.dst_root ++ [d.1],
          "root_dir"⟩ : PlanItem)) ++
      ((recRemovedL p (afterRootL p rel (SrcDirs.toList ds))).map fun d =>
        (⟨"EXCLUDE", p.src_root ++ rel ++ [d.1], p.dst_root ++ rel ++ [d.1],
          "recursive_dir"⟩ : PlanItem)) ++
      (fs.map fun f => SyncPlanner.fileItem p dfs rel f.1 f.2) ++
      walkDirs p dfs rel ds := by
  simp [planDir, hs]

/-- Items of a surviving child's walk are items of the parent's walk. -/
theorem mem_walkDirs_of (p : SyncPlanner) (dfs : DstFS) (rel : List String) :
    ∀ (ds : SrcDirs) (n : String) (sub : SrcTree),
      (n, sub) ∈ SrcDirs.toList ds → p.dirExcludedAt rel n = false →
      ∀ item ∈ planDir p dfs (rel ++ [n]) sub, item ∈ walkDirs p dfs rel ds
  | .nil, n, sub, hmem, _, _, _ => by simp [SrcDirs.toList] at hmem
  | .cons n2 sub2 rest, n, sub, hmem, hkept, item, hit => by
    simp only [SrcDirs.toList, List.mem_cons] at hmem
    rcases hmem with heq | hmem2
    · injection heq with h1 h2
      subst h1
      subst h2
      simp only [walkDirs, List.mem_append]
      left
      rw [if_neg (by simp [hkept])]
      exact hit
    · simp only [walkDirs, List.mem_append]
      right
      exact mem_walkDirs_of p dfs rel rest n sub hmem2 hkept item hit

/-- Items emitted at a visited directory are items of the whole plan. -/
theorem visits_sub (p : SyncPlanner) (dfs : DstFS) (t0 : SrcTree)
    (rel : List String) (t : SrcTree) (hv : Visits p t0 rel t) :
    ∀ item ∈ planDir p dfs rel t, item ∈ planDir p dfs [] t0 := by
  induction hv with
  | root => exact fun item hit => hit
  | @child rel2 t2 n sub hv2 hs hk ih =>
    intro item hit
    apply ih
    cases t2 with
    | unlistable =>
      rw [keptDirsL] at hk
      simp [SrcTree.dirs, SrcDirs.toList] at hk
    | node ds fs =>
      rw [keptDirsL] at hk
      have hk2 := List.mem_filter.mp hk
      have hmem : (n, sub) ∈ SrcDirs.toList ds := by
        simpa [SrcTree.dirs] using hk2.1
      have hkept : p.dirExcludedAt rel2 n = false := by
        have hb := hk2.2
        simp only [Bool.not_eq_true'] at hb
        exact hb
      rw [planDir_node_eq p dfs rel2 ds fs hs]
      simp only [List.mem_append]
      exact Or.inr (mem_walkDirs_of p dfs rel2 ds n sub hmem hkept item hit)

/-- If a list decomposes around an element followed by a nonempty suffix and
also as `rel ++ [m]`, the element lies in `rel`. -/
theorem interior_mem (rel : List String) (m : String) (pre : List String)
    (d : String) (post : List String)
    (h : pre ++ d :: post = rel ++ [m]) (hpost : post ≠ []) : d ∈ rel := by
  rcases post.eq_nil_or_concat with rfl | ⟨post0, plast, rfl⟩
  · exact absurd rfl hpost
  · rw [List.concat_eq_append] at h
    have h2 : (pre ++ d :: post0) ++ [plast] = rel ++ [m] := by
      simpa [List.append_assoc] using h
    have h3 := List.append_inj' h2 rfl
    rw [← h3.1]
    simp

mutual
/-- If the path to the current directory passes through no recursively
excluded name, then no emitted item's source path passes strictly through a
segment whose lowercased name is recursively excluded. -/
theorem planDir_interior (p : SyncPlanner) (dfs : DstFS) (rel : List String)
    (hrel : ∀ s ∈ rel, ¬ strLower s ∈ p.rec_excl) :
    ∀ t : SrcTree, ∀ item ∈ planDir p dfs rel t, ∀ pre d post,
      item.src = p.src_root ++ pre ++ [d] ++ post → post ≠ [] →
      ¬ strLower d ∈ p.rec_excl
  | .unlistable => by
    intro item hmem
    simp [planDir] at hmem
  | .node ds fs => by
    intro item hmem pre d post hsrc hpost
    by_cases hs : SyncPlanner.is_under_specific p rel = true
    · simp only [planDir, hs, if_pos, List.mem_singleton] at hmem
      subst hmem
      have h1 : p.src_root ++ rel = p.src_root ++ pre ++ [d] ++ post := hsrc
      simp only [List.append_assoc, List.singleton_append] at h1
      have h2 : rel = pre ++ d :: post := List.append_cancel_left h1
      exact fun hc => hrel d (by rw [h2]; simp) hc
    · rw [Bool.not_eq_true] at hs
      rw [planDir_node_eq p dfs rel ds fs hs] at hmem
      simp only [List.mem_append] at hmem
      rcases hmem with ((hA | hB) | hC) | hD
      · obtain ⟨d0, hd0, heq⟩ := List.mem_map.mp hA
        subst heq
        have h1 : p.src_root ++ rel ++ [d0.1] =
            p.src_root ++ pre ++ [d] ++ post := hsrc
        simp only [List.append_assoc, List.singleton_append] at h1
        have h2 : rel ++ [d0.1] = pre ++ d :: post := List.append_cancel_left h1
        exact fun hc => hrel d (interior_mem rel d0.1 pre d post h2.symm hpost) hc
      · obtain ⟨d0, hd0, heq⟩ := List.mem_map.mp hB
        subst heq
        have h1 : p.src_root ++ rel ++ [d0.1] =
            p.src_root ++ pre ++ [d] ++ post := hsrc
        simp only [List.append_assoc, List.singleton_append] at h1
        have h2 : rel ++ [d0.1] = pre ++ d :: post := List.append_cancel_left h1
        exact fun hc => hrel d (interior_mem rel d0.1 pre d post h2.symm hpost) hc
      · obtain ⟨f, hf, heq⟩ := List.mem_map.mp hC
        subst heq
        rw [(fileItem_src_dst p dfs rel f.1 f.2).1] at hsrc
        have h1 : p.src_root ++ rel ++ [f.1] =
            p.src_root ++ pre ++ [d] ++ post := hsrc
        simp only [List.append_assoc, List.singleton_append] at h1
        have h2 : rel ++ [f.1] = pre ++ d :: post := List.append_cancel_left h1
        exact fun hc => hrel d (interior_mem rel f.1 pre d post h2.symm hpost) hc
      · exact walkDirs_interior p dfs rel hrel ds item hD pre d post hsrc hpost
/-- The walk below the current directory likewise never passes strictly
through a recursively excluded segment. -/
theorem walkDirs_interior (p : SyncPlanner) (dfs : DstFS) (rel : List String)
    (hrel : ∀ s ∈ rel, ¬ strLower s ∈ p.rec_excl) :
    ∀ ds : SrcDirs, ∀ item ∈ walkDirs p dfs rel ds, ∀ pre d post,
      item.src = p.src_root ++ pre ++ [d] ++ post → post ≠ [] →
      ¬ strLower d ∈ p.rec_excl
  | .nil => by
    intro item hmem
    simp [walkDirs] at hmem
  | .cons n sub rest => by
    intro item hmem pre d post hsrc hpost
    simp only [walkDirs, List.mem_append] at hmem
    rcases hmem with hleft | hright
    · by_cases he : p.dirExcludedAt rel n = true
      · simp [he] at hleft
      · rw [Bool.not_eq_true] at he
        rw [if_neg (by simp [he])] at hleft
        have hrel2 : ∀ s ∈ rel ++ [n], ¬ strLower s ∈ p.rec_excl := by
          intro s hsmem
          rcases List.mem_append.mp hsmem with hs1 | hs2
          · exact hrel s hs1
          · rw [List.mem_singleton.mp hs2]
            exact (dirExcludedAt_false p rel n he).1
        exact planDir_interior p dfs (rel ++ [n]) hrel2 sub item hleft
          pre d post hsrc hpost
    · exact walkDirs_interior p dfs rel hrel rest item hright pre d post hsrc hpost
end

/-- The after-root list is a sublist of the child list. -/
theorem afterRootL_sublist (p : SyncPlanner) (rel : List String)
    (dl : List (String × SrcTree)) : (afterRootL p rel dl).Sublist dl := by
  unfold afterRootL
  by_cases hrel : rel = []
  · rw [if_pos hrel]
    exact List.filter_sublist dl
  · rw [if_neg hrel]

/-- The root-removal list is a sublist of the child list. -/
theorem rootRemovedL_sublist (p : SyncPlanner) (rel : List String)
    (dl : List (String × SrcTree)) : (rootRemovedL p rel dl).Sublist dl := by
  unfold rootRemovedL
  by_cases hrel : rel = []
  · rw [if_pos hrel]
    exact List.filter_sublist dl
  · rw [if_neg hrel]
    exact List.nil_sublist dl

/-- The recursive-removal list is a sublist of its input. -/
theorem recRemovedL_sublist (p : SyncPlanner) (dl : List (String × SrcTree)) :
    (recRemovedL p dl).Sublist dl :=
  List.filter_sublist dl

/-- Appending distinct final singletons to a fixed list is injective. -/
theorem append_singleton_inj (L : List String) :
    Function.Injective (fun nm : String => L ++ [nm]) := by
  intro a b h
  simpa using List.append_cancel_left h

mutual
/-- Over a well-formed snapshot, the emitted items have pairwise distinct
source paths (each reachable path receives exactly one disposition). -/
theorem planDir_src_nodup (p : SyncPlanner) (dfs : DstFS) (rel : List String) :
    ∀ t : SrcTree, SrcTree.wf t = true →
      ((planDir p dfs rel t).map PlanItem.src).Nodup
  | .unlistable => by
    intro _
    simp [planDir]
  | .node ds fs => by
    intro hwf
    obtain ⟨hnd, hall⟩ := (wf_node_iff ds fs).mp hwf
    by_cases hs : SyncPlanner.is_under_specific p rel = true
    · simp [planDir, hs]
    · rw [Bool.not_eq_true] at hs
      rw [planDir_node_eq p dfs rel ds fs hs]
      obtain ⟨hdn, hfn, hdisj⟩ := List.nodup_append.mp hnd
      simp only [List.map_append, List.map_map]
      have hsrcA : ∀ x ∈ (rootRemovedL p rel (SrcDirs.toList ds)).map
          (PlanItem.src ∘ fun d => (⟨"EXCLUDE", p.src_root ++ rel ++ [d.1],
            p.dst_root ++ [d.1], "root_dir"⟩ : PlanItem)),
          ∃ d0, d0 ∈ rootRemovedL p rel (SrcDirs.toList ds) ∧
            x = p.src_root ++ rel ++ [d0.1] := by
        intro x hx
        obtain ⟨d0, hd0, heq⟩ := List.mem_map.mp hx
        exact ⟨d0, hd0, heq.symm⟩
      have hsrcB : ∀ x ∈ (recRemovedL p (afterRootL p rel (SrcDirs.toList ds))).map
          (PlanItem.src ∘ fun d => (⟨"EXCLUDE", p.src_root ++ rel ++ [d.1],
            p.dst_root ++ rel ++ [d.1], "recursive_dir"⟩ : PlanItem)),
          ∃ d0, d0 ∈ recRemovedL p (afterRootL p rel (SrcDirs.toList ds)) ∧
            x = p.src_root ++ rel ++ [d0.1] := by
        intro x hx
        obtain ⟨d0, hd0, heq⟩ := List.mem_map.mp hx
        exact ⟨d0, hd0, heq.symm⟩
      have hsrcC : ∀ x ∈ fs.map (PlanItem.src ∘ fun f =>
            SyncPlanner.fileItem p dfs rel f.1 f.2),
          ∃ f, f ∈ fs ∧ x = p.src_root ++ rel ++ [f.1] := by
        intro x hx
        obtain ⟨f, hf, heq⟩ := List.mem_map.mp hx
        refine ⟨f, hf, ?_⟩
        rw [← heq]
        exact (fileItem_src_dst p dfs rel f.1 f.2).1
      have hsrcD : ∀ x ∈ (walkDirs p dfs rel ds).map PlanItem.src,
          ∃ n q, n ∈ (SrcDirs.toList ds).map Prod.fst ∧
            p.dirExcludedAt rel n = false ∧
            x = p.src_root ++ rel ++ [n] ++ q := by
        intro x hx
        obtain ⟨item, hitem, heq⟩ := List.mem_map.mp hx
        obtain ⟨n, q, hn, hkept, h1, _⟩ := walkDirs_shape p dfs rel ds item hitem
        exact ⟨n, q, hn, hkept, by rw [← heq, h1]⟩
      have cancel2 : ∀ a b : String, p.src_root ++ rel ++ [a] =
          p.src_root ++ rel ++ [b] → a = b := by
        intro a b h
        simpa [List.append_assoc] using h
      have cancel3 : ∀ (a n : String) (q : List String),
          p.src_root ++ rel ++ [a] = p.src_root ++ rel ++ [n] ++ q →
          a = n ∧ q = [] := by
        intro a n q h
        have h2 : a = n ∧ [] = q := by
          simpa [List.append_assoc] using h
        exact ⟨h2.1, h2.2.symm⟩
      have NA : ((rootRemovedL p rel (SrcDirs.toList ds)).map
          (PlanItem.src ∘ fun d => (⟨"EXCLUDE", p.src_root ++ rel ++ [d.1],
            p.dst_root ++ [d.1], "root_dir"⟩ : PlanItem))).Nodup := by
        have h1 : ((rootRemovedL p rel (SrcDirs.toList ds)).map Prod.fst).Nodup :=
          List.Nodup.sublist ((rootRemovedL_sublist p rel _).map Prod.fst) hdn
        have h2 : (rootRemovedL p rel (SrcDirs.toList ds)).map
            (PlanItem.src ∘ fun d => (⟨"EXCLUDE", p.src_root ++ rel ++ [d.1],
              p.dst_root ++ [d.1], "root_dir"⟩ : PlanItem)) =
            ((rootRemovedL p rel (SrcDirs.toList ds)).map Prod.fst).map
              (fun nm => p.src_root ++ rel ++ [nm]) := by
          rw [List.map_map]
          rfl
        rw [h2]
        exact h1.map (append_singleton_inj (p.src_root ++ rel))
      have NB : ((recRemovedL p (afterRootL p rel (SrcDirs.toList ds))).map
          (PlanItem.src ∘ fun d => (⟨"EXCLUDE", p.src_root ++ rel ++ [d.1],
            p.dst_root ++ rel ++ [d.1], "recursive_dir"⟩ : PlanItem))).Nodup := by
        have h1 : ((recRemovedL p (afterRootL p rel (SrcDirs.toList ds))).map
            Prod.fst).Nodup :=
          List.Nodup.sublist (((recRemovedL_sublist p _).trans
            (afterRootL_sublist p rel _)).map Prod.fst) hdn
        have h2 : (recRemovedL p (afterRootL p rel (SrcDirs.toList ds))).map
            (PlanItem.src ∘ fun d => (⟨"EXCLUDE", p.src_root ++ rel ++ [d.1],
              p.dst_root ++ rel ++ [d.1], "recursive_dir"⟩ : PlanItem)) =
            ((recRemovedL p (afterRootL p rel (SrcDirs.toList ds))).map
              Prod.fst).map (fun nm => p.src_root ++ rel ++ [nm]) := by
          rw [List.map_map]
          rfl
        rw [h2]
        exact h1.map (append_singleton_inj (p.src_root ++ rel))
      have NC : (fs.map (PlanItem.src ∘ fun f =>
          SyncPlanner.fileItem p dfs rel f.1 f.2)).Nodup := by
        have h2 : fs.map (PlanItem.src ∘ fun f =>
            SyncPlanner.fileItem p dfs rel f.1 f.2) =
            (fs.map Prod.fst).map (fun nm => p.src_root ++ rel ++ [nm]) := by
          rw [List.map_map]
          apply List.map_congr_left
          intro f _
          exact (fileItem_src_dst p dfs rel f.1 f.2).1
        rw [h2]
        exact hfn.map (append_singleton_inj (p.src_root ++ rel))
      have ND : ((walkDirs p dfs rel ds).map PlanItem.src).Nodup :=
        walkDirs_src_nodup p dfs rel ds hall hdn
      refine List.Nodup.append (List.Nodup.append (List.Nodup.append NA NB ?_) NC ?_)
        ND ?_
      · -- root-removed vs recursive-removed: matched vs unmatched root names
        intro x hxA hxB
        obtain ⟨d1, hd1, he1⟩ := hsrcA x hxA
        obtain ⟨d2, hd2, he2⟩ := hsrcB x hxB
        obtain ⟨_, hrel1, hroot1⟩ := mem_rootRemovedL p rel _ d1 hd1
        obtain ⟨hd2in, hrec2⟩ := mem_recRemovedL p _ d2 hd2
        obtain ⟨_, hnotroot⟩ := mem_afterRootL p rel _ d2 hd2in
        have heq := cancel2 d1.1 d2.1 (he1.symm.trans he2)
        exact (hnotroot hrel1) (heq ▸ hroot1)
      · -- directory names vs file names
        intro x hxAB hxC
        obtain ⟨f, hf, hef⟩ := hsrcC x hxC
        rcases List.mem_append.mp hxAB with hxA | hxB
        · obtain ⟨d1, hd1, he1⟩ := hsrcA x hxA
          have hd1in := (mem_rootRemovedL p rel _ d1 hd1).1
          have heq := cancel2 d1.1 f.1 (he1.symm.trans hef)
          exact hdisj (heq ▸ List.mem_map_of_mem Prod.fst hd1in)
            (List.mem_map_of_mem Prod.fst hf)
        · obtain ⟨d2, hd2, he2⟩ := hsrcB x hxB
          have hd2in := (mem_afterRootL p rel _ d2
            (mem_recRemovedL p _ d2 hd2).1).1
          have heq := cancel2 d2.1 f.1 (he2.symm.trans hef)
          exact hdisj (heq ▸ List.mem_map_of_mem Prod.fst hd2in)
            (List.mem_map_of_mem Prod.fst hf)
      · -- this level vs the walk below: removed or file names vs kept names
        intro x hxABC hxD
        obtain ⟨n, q, hnmem, hkept, heD⟩ := hsrcD x hxD
        have hkept2 := dirExcludedAt_false p rel n hkept
        rcases List.mem_append.mp hxABC with hxAB | hxC
        · rcases List.mem_append.mp hxAB with hxA | hxB
          · obtain ⟨d1, hd1, he1⟩ := hsrcA x hxA
            obtain ⟨_, hrel1, hroot1⟩ := mem_rootRemovedL p rel _ d1 hd1
            obtain ⟨heq, _⟩ := cancel3 d1.1 n q (he1.symm.trans heD)
            exact (hkept2.2 hrel1) (heq ▸ hroot1)
          · obtain ⟨d2, hd2, he2⟩ := hsrcB x hxB
            have hrec2 := (mem_recRemovedL p _ d2 hd2).2
            obtain ⟨heq, _⟩ := cancel3 d2.1 n q (he2.symm.trans heD)
            exact hkept2.1 (heq ▸ hrec2)
        · obtain ⟨f, hf, hef⟩ := hsrcC x hxC
          obtain ⟨heq, _⟩ := cancel3 f.1 n q (hef.symm.trans heD)
          exact hdisj (heq ▸ hnmem) (List.mem_map_of_mem Prod.fst hf)
/-- Items below distinct surviving children have distinct source paths. -/
theorem walkDirs_src_nodup (p : SyncPlanner) (dfs : DstFS) (rel : List String) :
    ∀ ds : SrcDirs, SrcDirs.wfAll ds = true →
      ((SrcDirs.toList ds).map Prod.fst).Nodup →
      ((walkDirs p dfs rel ds).map PlanItem.src).Nodup
  | .nil => by
    intro _ _
    simp [walkDirs]
  | .cons n sub rest => by
    intro hwf hnames
    simp only [SrcDirs.wfAll, Bool.and_eq_true] at hwf
    simp only [SrcDirs.toList, List.map_cons, List.nodup_cons] at hnames
    simp only [walkDirs, List.map_append]
    by_cases he : p.dirExcludedAt rel n = true
    · rw [if_pos he]
      simp only [List.nil_append, List.map_nil]
      exact walkDirs_src_nodup p dfs rel rest hwf.2 hnames.2
    · rw [Bool.not_eq_true] at he
      rw [if_neg (by simp [he])]
      refine List.Nodup.append
        (planDir_src_nodup p dfs (rel ++ [n]) sub hwf.1)
        (walkDirs_src_nodup p dfs rel rest hwf.2 hnames.2) ?_
      intro x hxL hxR
      obtain ⟨item, hitem, heq⟩ := List.mem_map.mp hxL
      obtain ⟨q, h1, _⟩ := planDir_shape p dfs (rel ++ [n]) sub item hitem
      obtain ⟨item2, hitem2, heq2⟩ := List.mem_map.mp hxR
      obtain ⟨n2, q2, hn2, _, h2, _⟩ := walkDirs_shape p dfs rel rest item2 hitem2
      have h3 : p.src_root ++ (rel ++ [n]) ++ q =
          p.src_root ++ rel ++ [n2] ++ q2 := by
        rw [← h1, ← h2, heq, heq2]
      have h4 : n = n2 ∧ q = q2 := by
        simpa [List.append_assoc] using h3
      exact hnames.1 (h4.1 ▸ hn2)
end

/-- Over a well-formed snapshot, filtering the whole plan for the source
path of an item emitted at any visited directory yields exactly that item:
each path receives exactly one disposition. -/
theorem plan_filter_eq (p : SyncPlanner) (dfs : DstFS) (t0 : SrcTree)
    (hwf : SrcTree.wf t0 = true) (rel : List String) (t : SrcTree)
    (hv : Visits p t0 rel t) (I : PlanItem) (hI : I ∈ planDir p dfs rel t) :
    (planDir p dfs [] t0).filter (fun it => it.src = I.src) = [I] :=
  filter_eq_singleton_of_nodup_map PlanItem.src _
    (planDir_src_nodup p dfs [] t0 hwf) I (visits_sub p dfs t0 rel t hv I hI)

/-- Strings with different lengths differ. -/
theorem ne_of_length_ne (a b : String) (h : a.length ≠ b.length) : a ≠ b :=
  fun e => h (congrArg String.length e)

/-- No reason produced by `_decide` is the directory-pruning tag
"root_dir". -/
theorem decide_action_reason_ne_rootdir (st : FileStat) (d : Option FileStat) :
    (SyncPlanner.decide_action st d).2 ≠ "root_dir" := by
  cases st with
  | err e =>
    have h1 : (SyncPlanner.decide_action (FileStat.err e) d).2 =
        "unreadable: " ++ e := by cases d <;> rfl
    rw [h1]
    apply ne_of_length_ne
    rw [String.length_append]
    have h2 : "unreadable: ".length = 12 := rfl
    have h3 : "root_dir".length = 8 := rfl
    omega
  | ok s m =>
    cases d with
    | none => exact (by decide : ("missing" : String) ≠ "root_dir")
    | some d2 =>
      cases d2 with
      | err e2 =>
        have h1 : (SyncPlanner.decide_action (FileStat.ok s m)
            (some (FileStat.err e2))).2 = "dst unreadable: " ++ e2 := rfl
        rw [h1]
        apply ne_of_length_ne
        rw [String.length_append]
        have h2 : "dst unreadable: ".length = 16 := rfl
        have h3 : "root_dir".length = 8 := rfl
        omega
      | ok s2 m2 =>
        by_cases hb1 : s = s2
        · by_cases hb2 : (m - m2).natAbs ≤ 2
          · rw [(decide_action_skip_iff s m s2 m2).mpr ⟨hb1, hb2⟩]
            exact (by decide : ("same size+mtime" : String) ≠ "root_dir")
          · rw [decide_action_update_eq s m s2 m2 (by tauto), if_pos hb1,
              if_neg hb2]
            exact (by decide : ("size =, mtime ≠" : String) ≠ "root_dir")
        · by_cases hb2 : (m - m2).natAbs ≤ 2
          · rw [decide_action_update_eq s m s2 m2 (by tauto), if_neg hb1,
              if_pos hb2]
            exact (by decide : ("size ≠, mtime =" : String) ≠ "root_dir")
          · rw [decide_action_update_eq s m s2 m2 (by tauto), if_neg hb1,
              if_neg hb2]
            exact (by decide : ("size ≠, mtime ≠" : String) ≠ "root_dir")

/-- A pattern-matched file yields the pattern EXCLUDE item, regardless of
the file's stat result and of the destination filesystem. -/
theorem fileItem_pattern_eq (p : SyncPlanner) (dfs : DstFS) (rel : List String)
    (fname : String) (st : FileStat)
    (hexcl : p.is_file_excluded fname = true) :
    SyncPlanner.fileItem p dfs rel fname st =
      ⟨"EXCLUDE", p.src_root ++ rel ++ [fname], p.dst_root ++ rel ++ [fname],
        "pattern"⟩ := by
  simp [SyncPlanner.fileItem, hexcl]

/-- A file that matches no pattern is classified by `_decide` against its
destination path. -/
theorem fileItem_decide_eq (p : SyncPlanner) (dfs : DstFS) (rel : List String)
    (fname : String) (st : FileStat)
    (hexcl : p.is_file_excluded fname = false) :
    SyncPlanner.fileItem p dfs rel fname st =
      ⟨(SyncPlanner.decide_action st (dfs (p.dst_root ++ rel ++ [fname]))).1,
        p.src_root ++ rel ++ [fname], p.dst_root ++ rel ++ [fname],
        (SyncPlanner.decide_action st (dfs (p.dst_root ++ rel ++ [fname]))).2⟩ := by
  simp [SyncPlanner.fileItem, hexcl]

/-- The root-removal EXCLUDE item is emitted at its level. -/
theorem rootItem_mem (p : SyncPlanner) (dfs : DstFS) (rel : List String)
    (ds : SrcDirs) (fs : List (String × FileStat))
    (hs : SyncPlanner.is_under_specific p rel = false) (d : String × SrcTree)
    (hd : d ∈ rootRemovedL p rel (SrcDirs.toList ds)) :
    (⟨"EXCLUDE", p.src_root ++ rel ++ [d.1], p.dst_root ++ [d.1],
      "root_dir"⟩ : PlanItem) ∈ planDir p dfs rel (SrcTree.node ds fs) := by
  rw [planDir_node_eq p dfs rel ds fs hs]
  simp only [List.mem_append]
  exact Or.inl (Or.inl (Or.inl (List.mem_map_of_mem _ hd)))

/-- The recursive-removal EXCLUDE item is emitted at its level. -/
theorem recItem_mem (p : SyncPlanner) (dfs : DstFS) (rel : List String)
    (ds : SrcDirs) (fs : List (String × FileStat))
    (hs : SyncPlanner.is_under_specific p rel = false) (d : String × SrcTree)
    (hd : d ∈ recRemovedL p (afterRootL p rel (SrcDirs.toList ds))) :
    (⟨"EXCLUDE", p.src_root ++ rel ++ [d.1], p.dst_root ++ rel ++ [d.1],
      "recursive_dir"⟩ : PlanItem) ∈ planDir p dfs rel (SrcTree.node ds fs) := by
  rw [planDir_node_eq p dfs rel ds fs hs]
  simp only [List.mem_append]
  exact Or.inl (Or.inl (Or.inr (List.mem_map_of_mem _ hd)))

/-- Every file of a visited directory contributes its item at that level. -/
theorem fileItem_mem (p : SyncPlanner) (dfs : DstFS) (rel : List String)
    (ds : SrcDirs) (fs : List (String × FileStat))
    (hs : SyncPlanner.is_under_specific p rel = false) (f : String × FileStat)
    (hf : f ∈ fs) :
    SyncPlanner.fileItem p dfs rel f.1 f.2 ∈
      planDir p dfs rel (SrcTree.node ds fs) := by
  rw [planDir_node_eq p dfs rel ds fs hs]
  simp only [List.mem_append]
  exact Or.inl (Or.inr (List.mem_map_of_mem _ hf))

mutual
/-- Any item with reason "root_dir" was emitted at depth zero, is an
EXCLUDE, and names an immediate child of the root whose lowercased name is
in the root-only set. -/
theorem planDir_rootdir (p : SyncPlanner) (dfs : DstFS) (rel : List String) :
    ∀ t : SrcTree, ∀ item ∈ planDir p dfs rel t, item.reason = "root_dir" →
      rel = [] ∧ item.action = "EXCLUDE" ∧
        ∃ n, item.src = p.src_root ++ rel ++ [n] ∧ strLower n ∈ p.root_excl
  | .unlistable => by
    intro item hmem
    simp [planDir] at hmem
  | .node ds fs => by
    intro item hmem hreason
    by_cases hs : SyncPlanner.is_under_specific p rel = true
    · simp only [planDir, hs, if_pos, List.mem_singleton] at hmem
      subst hmem
      exact absurd hreason (by decide : ("specific_path" : String) ≠ "root_dir")
    · rw [Bool.not_eq_true] at hs
      rw [planDir_node_eq p dfs rel ds fs hs] at hmem
      simp only [List.mem_append] at hmem
      rcases hmem with ((hA | hB) | hC) | hD
      · obtain ⟨d0, hd0, heq⟩ := List.mem_map.mp hA
        subst heq
        obtain ⟨_, hrel, hroot⟩ := mem_rootRemovedL p rel _ d0 hd0
        exact ⟨hrel, rfl, d0.1, rfl, hroot⟩
      · obtain ⟨d0, hd0, heq⟩ := List.mem_map.mp hB
        subst heq
        exact absurd hreason (by decide : ("recursive_dir" : String) ≠ "root_dir")
      · obtain ⟨f, hf, heq⟩ := List.mem_map.mp hC
        subst heq
        by_cases hexcl : p.is_file_excluded f.1 = true
        · rw [fileItem_pattern_eq p dfs rel f.1 f.2 hexcl] at hreason
          exact absurd hreason (by decide : ("pattern" : String) ≠ "root_dir")
        · rw [Bool.not_eq_true] at hexcl
          rw [fileItem_decide_eq p dfs rel f.1 f.2 hexcl] at hreason
          exact absurd hreason (decide_action_reason_ne_rootdir f.2 _)
      · exact absurd hD (walkDirs_rootdir p dfs rel ds item hreason)
/-- No item produced below the root level carries the reason "root_dir". -/
theorem walkDirs_rootdir (p : SyncPlanner) (dfs : DstFS) (rel : List String) :
    ∀ ds : SrcDirs, ∀ item : PlanItem, item.reason = "root_dir" →
      ¬ item ∈ walkDirs p dfs rel ds
  | .nil => by
    intro item _ hmem
    simp [walkDirs] at hmem
  | .cons n sub rest => by
    intro item hreason hmem
    simp only [walkDirs, List.mem_append] at hmem
    rcases hmem with hleft | hright
    · by_cases he : p.dirExcludedAt rel n = true
      · simp [he] at hleft
      · rw [Bool.not_eq_true] at he
        rw [if_neg (by simp [he])] at hleft
        obtain ⟨habs, _⟩ :=
          planDir_rootdir p dfs (rel ++ [n]) sub item hleft hreason
        simp at habs
    · exact walkDirs_rootdir p dfs rel rest item hreason hright
end

/-! ## Claims C1, C5, C6, C8 -/

/-- C1: for a directory name in `recursive_dirs` (matched
case-insensitively), the plan emits exactly one EXCLUDE item with reason
"recursive_dir" for each occurrence the walk encounters (after the
root-level filter), and no item of any action is ever emitted for a path
strictly inside such a directory, at any depth. -/
theorem C1_recursive_dir_pruning (src_root dst_root rootDirs recursiveDirs
    filePatterns specificPaths : List String) (dfs : DstFS) (t0 : SrcTree) :
    let P := SyncPlanner.ofConfig src_root dst_root
      (Excludes.fromConfig rootDirs recursiveDirs filePatterns specificPaths)
    (∀ item ∈ planDir P dfs [] t0,
      ∀ pre d post, item.src = src_root ++ pre ++ [d] ++ post → post ≠ [] →
        ∀ r ∈ recursiveDirs, strLower d ≠ strLower r) ∧
    (SrcTree.wf t0 = true → ∀ rel t d sub,
      Visits P t0 rel t →
      SyncPlanner.is_under_specific P rel = false →
      (d, sub) ∈ recRemovedL P (afterRootL P rel (SrcDirs.toList t.dirs)) →
      (planDir P dfs [] t0).filter
          (fun it => it.src = src_root ++ rel ++ [d]) =
        [⟨"EXCLUDE", src_root ++ rel ++ [d], dst_root ++ rel ++ [d],
          "recursive_dir"⟩]) := by
  intro P
  constructor
  · intro item hmem pre d post hsrc hpost r hr heq
    have hint := planDir_interior P dfs [] (by simp) t0 item hmem
      pre d post hsrc hpost
    apply hint
    show strLower d ∈ recursiveDirs.map strLower
    exact List.mem_map.mpr ⟨r, hr, heq.symm⟩
  · intro hwf rel t d sub hv hs hd
    cases t with
    | unlistable => simp [SrcTree.dirs, SrcDirs.toList, afterRootL, recRemovedL] at hd
    | node ds fs =>
      have hmem := recItem_mem P dfs rel ds fs hs (d, sub) hd
      exact plan_filter_eq P dfs t0 hwf rel (SrcTree.node ds fs) hv _ hmem

/-- Witness for C1: the recursive exclusion `Build` (configured with a
capital letter) removes the root child `build` of the sample snapshot with
exactly one recursive_dir EXCLUDE item. -/
theorem C1_recursive_dir_pruning_witness :
    (planDir sampleP sampleDst [] sampleSrcTree).filter
        (fun it => it.src = ["SRC", "build"]) =
      [⟨"EXCLUDE", ["SRC", "build"], ["DST", "build"], "recursive_dir"⟩] :=
  (C1_recursive_dir_pruning ["SRC"] ["DST"] ["node_modules"] ["Build"]
      ["*.o"] ["scripts\\output"] sampleDst sampleSrcTree).2 (by decide)
    [] sampleSrcTree "build" (SrcTree.node SrcDirs.nil [("y", FileStat.ok 2 2)])
    Visits.root (by decide) (List.Mem.head _)

/-- C5: a directory name in `root_dirs` is pruned with one EXCLUDE item of
reason "root_dir" only when it appears as an immediate child of the source
root (every root_dir item names such a child, case-insensitively, and each
root-level match produces exactly one such item), while the same name at a
deeper level is not pruned by this rule alone and its contents are planned
normally (shown on a snapshot with `node_modules` both at the root and
nested). -/
theorem C5_root_only_scoping (src_root dst_root rootDirs recursiveDirs
    filePatterns specificPaths : List String) (dfs : DstFS) (t0 : SrcTree) :
    let P := SyncPlanner.ofConfig src_root dst_root
      (Excludes.fromConfig rootDirs recursiveDirs filePatterns specificPaths)
    (∀ item ∈ planDir P dfs [] t0, item.reason = "root_dir" →
      item.action = "EXCLUDE" ∧ ∃ n, item.src = src_root ++ [n] ∧
        ∃ r ∈ rootDirs, strLower n = strLower r) ∧
    (SrcTree.wf t0 = true → ∀ rel t d sub,
      Visits P t0 rel t →
      SyncPlanner.is_under_specific P rel = false →
      (d, sub) ∈ rootRemovedL P rel (SrcDirs.toList t.dirs) →
      (planDir P dfs [] t0).filter
          (fun it => it.src = src_root ++ rel ++ [d]) =
        [⟨"EXCLUDE", src_root ++ rel ++ [d], dst_root ++ [d], "root_dir"⟩]) ∧
    (planDir rootScopeP emptyDst [] rootScopeSrcTree =
      [⟨"EXCLUDE", ["SRC", "node_modules"], ["DST", "node_modules"],
        "root_dir"⟩,
       ⟨"ADD", ["SRC", "a", "node_modules", "y.js"],
        ["DST", "a", "node_modules", "y.js"], "missing"⟩]) := by
  intro P
  refine ⟨?_, ?_, by decide⟩
  · intro item hmem hreason
    obtain ⟨hrel, haction, n, hsrc, hroot⟩ :=
      planDir_rootdir P dfs [] t0 item hmem hreason
    refine ⟨haction, n, by simpa using hsrc, ?_⟩
    have hroot2 : strLower n ∈ rootDirs.map strLower := hroot
    obtain ⟨r, hr, heq⟩ := List.mem_map.mp hroot2
    exact ⟨r, hr, heq.symm⟩
  · intro hwf rel t d sub hv hs hd
    cases t with
    | unlistable => simp [SrcTree.dirs, SrcDirs.toList, rootRemovedL] at hd
    | node ds fs =>
      have hmem := rootItem_mem P dfs rel ds fs hs (d, sub) hd
      exact plan_filter_eq P dfs t0 hwf rel (SrcTree.node ds fs) hv _ hmem

/-- Witness for C5: the root-only exclusion `node_modules` removes the root
child of the sample snapshot with exactly one root_dir EXCLUDE item. -/
theorem C5_root_only_scoping_witness :
    (planDir sampleP sampleDst [] sampleSrcTree).filter
        (fun it => it.src = ["SRC", "node_modules"]) =
      [⟨"EXCLUDE", ["SRC", "node_modules"], ["DST", "node_modules"],
        "root_dir"⟩] :=
  (C5_root_only_scoping ["SRC"] ["DST"] ["node_modules"] ["Build"]
      ["*.o"] ["scripts\\output"] sampleDst sampleSrcTree).2.1 (by decide)
    [] sampleSrcTree "node_modules"
    (SrcTree.node SrcDirs.nil [("x.js", FileStat.ok 1 1)])
    Visits.root (by decide) (List.Mem.head _)

/-- C6 (amended): planning fails fatally if and only if the source root
does not exist (with a "Source not found" error and no items); for an
existing root the plan always completes, and a per-file stat failure is
absorbed as that file's own visible disposition: an unreadable source file
becomes exactly one EXCLUDE item with reason "unreadable: ...", and an
unreadable destination becomes exactly one UPDATE item with reason
"dst unreadable: ...". A directory whose listing fails is however NOT
visibly marked: `os.walk` runs with its default `onerror=None`, so the
walk emits no item at all for it or its subtree — it is silently
dropped. -/
theorem C6_planning_error_containment (p : SyncPlanner) (dfs : DstFS) :
    (p.plan dfs none =
      Except.error ("Source not found: " ++ joinBS p.src_root)) ∧
    (∀ t, p.plan dfs (some t) = Except.ok (planDir p dfs [] t)) ∧
    (∀ rel, planDir p dfs rel SrcTree.unlistable = []) ∧
    (∀ t0, SrcTree.wf t0 = true → ∀ rel t fname e,
      Visits p t0 rel t →
      SyncPlanner.is_under_specific p rel = false →
      (fname, FileStat.err e) ∈ t.files →
      p.is_file_excluded fname = false →
      (planDir p dfs [] t0).filter
          (fun it => it.src = p.src_root ++ rel ++ [fname]) =
        [⟨"EXCLUDE", p.src_root ++ rel ++ [fname],
          p.dst_root ++ rel ++ [fname], "unreadable: " ++ e⟩]) ∧
    (∀ t0, SrcTree.wf t0 = true → ∀ rel t fname s m e,
      Visits p t0 rel t →
      SyncPlanner.is_under_specific p rel = false →
      (fname, FileStat.ok s m) ∈ t.files →
      p.is_file_excluded fname = false →
      dfs (p.dst_root ++ rel ++ [fname]) = some (FileStat.err e) →
      (planDir p dfs [] t0).filter
          (fun it => it.src = p.src_root ++ rel ++ [fname]) =
        [⟨"UPDATE", p.src_root ++ rel ++ [fname],
          p.dst_root ++ rel ++ [fname], "dst unreadable: " ++ e⟩]) := by
  refine ⟨rfl, fun t => rfl, fun rel => rfl, ?_, ?_⟩
  · intro t0 hwf rel t fname e hv hs hfmem hexcl
    cases t with
    | unlistable => simp [SrcTree.files] at hfmem
    | node ds fs =>
      have hitem := fileItem_mem p dfs rel ds fs hs (fname, FileStat.err e) hfmem
      rw [fileItem_decide_eq p dfs rel fname (FileStat.err e) hexcl] at hitem
      exact plan_filter_eq p dfs t0 hwf rel (SrcTree.node ds fs) hv _ hitem
  · intro t0 hwf rel t fname s m e hv hs hfmem hexcl hdst
    cases t with
    | unlistable => simp [SrcTree.files] at hfmem
    | node ds fs =>
      have hitem := fileItem_mem p dfs rel ds fs hs (fname, FileStat.ok s m) hfmem
      rw [fileItem_decide_eq p dfs rel fname (FileStat.ok s m) hexcl] at hitem
      rw [hdst] at hitem
      exact plan_filter_eq p dfs t0 hwf rel (SrcTree.node ds fs) hv _ hitem

/-- Witness for C6: the unreadable sample file `bad` is visibly marked with
exactly one EXCLUDE item carrying its stat error. -/
theorem C6_planning_error_containment_witness :
    (planDir sampleP sampleDst [] sampleSrcTree).filter
        (fun it => it.src = ["SRC", "bad"]) =
      [⟨"EXCLUDE", ["SRC", "bad"], ["DST", "bad"], "unreadable: eperm"⟩] :=
  (C6_planning_error_containment sampleP sampleDst).2.2.2.1 sampleSrcTree
    (by decide) [] sampleSrcTree "bad" "eperm" Visits.root (by decide)
    (by decide) (by decide)

/-- Counterexample to C6 as originally stated: with no exclusions
configured, a source root whose only entry is the subdirectory `data` —
present in the root's listing but itself unlistable — plans successfully
with an EMPTY item list. The dry run completes, but the filesystem error
on `data` is not absorbed as any per-item EXCLUDE or UPDATE disposition:
no item of any kind mentions the directory or its subtree, so the
unreadable entry is silently dropped rather than visibly marked. -/
theorem C6_unlistable_counterexample :
    SrcTree.dirsList unlistableSrcTree = [("data", SrcTree.unlistable)] ∧
    SyncPlanner.plan plainP emptyDst (some unlistableSrcTree) =
      Except.ok [] :=
  ⟨rfl, congrArg Except.ok
    (by decide : planDir plainP emptyDst [] unlistableSrcTree = [])⟩

/-- C8: a traversed file whose bare name matches a configured glob pattern
(matched case-insensitively, on the filename alone) is emitted as exactly
one EXCLUDE item with reason "pattern", and its item is computed without any
size/mtime comparison or destination lookup: it is independent of the
file's stat result and of the destination filesystem. -/
theorem C8_pattern_exclusion (p : SyncPlanner) :
    (∀ (dfs : DstFS) (rel : List String) (fname : String) (st : FileStat),
      p.is_file_excluded fname = true →
      SyncPlanner.fileItem p dfs rel fname st =
        ⟨"EXCLUDE", p.src_root ++ rel ++ [fname], p.dst_root ++ rel ++ [fname],
          "pattern"⟩) ∧
    (∀ (dfs dfs2 : DstFS) (rel : List String) (fname : String)
        (st st2 : FileStat),
      p.is_file_excluded fname = true →
      SyncPlanner.fileItem p dfs rel fname st =
        SyncPlanner.fileItem p dfs2 rel fname st2) ∧
    (∀ (dfs : DstFS) (t0 : SrcTree), SrcTree.wf t0 = true →
      ∀ (rel : List String) (t : SrcTree) (fname : String) (st : FileStat),
      Visits p t0 rel t →
      SyncPlanner.is_under_specific p rel = false →
      (fname, st) ∈ t.files →
      p.is_file_excluded fname = true →
      (planDir p dfs [] t0).filter
          (fun it => it.src = p.src_root ++ rel ++ [fname]) =
        [⟨"EXCLUDE", p.src_root ++ rel ++ [fname],
          p.dst_root ++ rel ++ [fname], "pattern"⟩]) := by
  refine ⟨?_, ?_, ?_⟩
  · intro dfs rel fname st hexcl
    exact fileItem_pattern_eq p dfs rel fname st hexcl
  · intro dfs dfs2 rel fname st st2 hexcl
    rw [fileItem_pattern_eq p dfs rel fname st hexcl,
      fileItem_pattern_eq p dfs2 rel fname st2 hexcl]
  · intro dfs t0 hwf rel t fname st hv hs hfmem hexcl
    cases t with
    | unlistable => simp [SrcTree.files] at hfmem
    | node ds fs =>
      have hitem := fileItem_mem p dfs rel ds fs hs (fname, st) hfmem
      rw [fileItem_pattern_eq p dfs rel fname st hexcl] at hitem
      exact plan_filter_eq p dfs t0 hwf rel (SrcTree.node ds fs) hv _ hitem

/-- Witness for C8: the file `tmp.o` matches the pattern `*.o` and is
excluded with exactly one pattern item. -/
theorem C8_pattern_exclusion_witness :
    (planDir sampleP sampleDst [] sampleSrcTree).filter
        (fun it => it.src = ["SRC", "tmp.o"]) =
      [⟨"EXCLUDE", ["SRC", "tmp.o"], ["DST", "tmp.o"], "pattern"⟩] :=
  (C8_pattern_exclusion sampleP).2.2 sampleDst sampleSrcTree (by decide)
    [] sampleSrcTree "tmp.o" (FileStat.ok 3 3) Visits.root (by decide)
    (by decide) (by decide)

/-! ## Toolkit: applier state lemmas -/

/-- Reading back a freshly set file entry. -/
theorem setFile_self (fs : FS) (q : List String) (v : Option DEntry) :
    (fs.setFile q v).files q = v := by
  simp [FS.setFile]

/-- Setting one file entry leaves the others unchanged. -/
theorem setFile_ne (fs : FS) (q r : List String) (v : Option DEntry)
    (h : r ≠ q) : (fs.setFile q v).files r = fs.files r := by
  simp [FS.setFile, h]

/-- After the guarded removal the path is absent. -/
theorem removeIfExists_self (fs : FS) (q : List String) :
    (fs.removeIfExists q).files q = none := by
  unfold FS.removeIfExists
  cases hq : fs.files q with
  | none => exact hq
  | some v => exact setFile_self fs q none

/-- The guarded removal touches only its path. -/
theorem removeIfExists_ne (fs : FS) (q r : List String) (h : r ≠ q) :
    (fs.removeIfExists q).files r = fs.files r := by
  unfold FS.removeIfExists
  cases hq : fs.files q with
  | none => rfl
  | some v => exact setFile_ne fs q r none h

/-- Creating directories does not change any file entry. -/
theorem mkdirParents_files (fs : FS) (d q : List String) :
    (fs.mkdirParents d).files q = fs.files q := rfl

/-- After creating the parents, the destination's parent directory exists. -/
theorem mkdirParents_dirs_self (fs : FS) (d : List String) :
    (fs.mkdirParents d).dirs d.dropLast = true := by
  unfold FS.mkdirParents
  have h : d.dropLast.isPrefixOf d.dropLast = true := by
    rw [List.isPrefixOf_iff_prefix]
  simp [h]

/-- The temporary sibling path differs from the destination path. -/
theorem tempName_ne : ∀ d : List String, tempName d ≠ d
  | [] => by simp [tempName]
  | [x] => by
    intro h
    simp only [tempName, List.cons.injEq, and_true] at h
    have h2 := congrArg String.length h
    rw [String.length_append] at h2
    have h3 : ".part".length = 5 := rfl
    omega
  | x :: y :: rest => by
    intro h
    simp only [tempName, List.cons.injEq] at h
    exact tempName_ne (y :: rest) h.2

/-- Outcome of one application when the copy step fails. -/
theorem applyOne_copyFail (env : ApplyEnv) (pm : Bool) (it : PlanItem)
    (fs0 : FS) (e : ApplyErr) (hc : env.copyFail it.src = some e) :
    SyncApplier.applyOne env pm it fs0 = Except.error (e,
      (((fs0.mkdirParents it.dst).setFile (tempName it.dst)
        (some DEntry.broken)).removeIfExists (tempName it.dst))) := by
  simp [SyncApplier.applyOne, hc]

/-- Outcome of one application when the source cannot be read. -/
theorem applyOne_srcGone (env : ApplyEnv) (pm : Bool) (it : PlanItem)
    (fs0 : FS) (hc : env.copyFail it.src = none)
    (hst : env.srcStat it.src = none) :
    SyncApplier.applyOne env pm it fs0 =
      Except.error (ApplyErr.io "copyfile: source unreadable",
      (((fs0.mkdirParents it.dst).setFile (tempName it.dst)
        (some DEntry.broken)).removeIfExists (tempName it.dst))) := by
  simp [SyncApplier.applyOne, hc, hst]

/-- Outcome of one application when the timestamp step fails. -/
theorem applyOne_utimeFail (env : ApplyEnv) (pm : Bool) (it : PlanItem)
    (fs0 : FS) (m : Nat × Int) (e : ApplyErr)
    (hc : env.copyFail it.src = none) (hst : env.srcStat it.src = some m)
    (hut : (if pm then env.utimeFail (tempName it.dst) else none) = some e) :
    SyncApplier.applyOne env pm it fs0 = Except.error (e,
      (((fs0.mkdirParents it.dst).setFile (tempName it.dst)
        (some (DEntry.full m.1 env.copyMtime))).removeIfExists
          (tempName it.dst))) := by
  simp [SyncApplier.applyOne, hc, hst, hut]


/-- Outcome of one application when the rename step fails: the error is
re-raised with the temporary file removed. -/
theorem applyOne_renameFail (env : ApplyEnv) (pm : Bool) (it : PlanItem)
    (fs0 : FS) (m : Nat × Int) (e : ApplyErr)
    (hc : env.copyFail it.src = none) (hst : env.srcStat it.src = some m)
    (hut : (if pm then env.utimeFail (tempName it.dst) else none) = none)
    (hrn : env.renameFail it.dst = some e) :
    SyncApplier.applyOne env pm it fs0 = Except.error (e,
      ((if pm then
          ((fs0.mkdirParents it.dst).setFile (tempName it.dst)
            (some (DEntry.full m.1 env.copyMtime))).setFile (tempName it.dst)
            (some (DEntry.full m.1 m.2))
        else
          (fs0.mkdirParents it.dst).setFile (tempName it.dst)
            (some (DEntry.full m.1 env.copyMtime))).removeIfExists
        (tempName it.dst))) := by
  simp [SyncApplier.applyOne, hc, hst, hut, hrn]

/-- Facts about one successful application: the destination holds a
complete copy of the source's size, with the source's mtime when
preservation is on and the copy-time mtime otherwise; the temporary file is
gone; the destination's parents exist; nothing else changed. -/
theorem applyOne_ok_facts (env : ApplyEnv) (pm : Bool) (it : PlanItem)
    (fs0 : FS) (m : Nat × Int)
    (hc : env.copyFail it.src = none) (hst : env.srcStat it.src = some m)
    (hut : (if pm then env.utimeFail (tempName it.dst) else none) = none)
    (hrn : env.renameFail it.dst = none) :
    ∃ fs2, SyncApplier.applyOne env pm it fs0 = Except.ok fs2 ∧
      fs2.files it.dst = some (DEntry.full m.1 (if pm then m.2 else env.copyMtime)) ∧
      fs2.files (tempName it.dst) = none ∧
      fs2.dirs it.dst.dropLast = true ∧
      (∀ q, q ≠ it.dst → q ≠ tempName it.dst → fs2.files q = fs0.files q) := by
  have hdt : it.dst ≠ tempName it.dst := fun h => tempName_ne it.dst h.symm
  cases pm with
  | false =>
    refine ⟨(((fs0.mkdirParents it.dst).setFile (tempName it.dst)
        (some (DEntry.full m.1 env.copyMtime))).setFile it.dst
        (some (DEntry.full m.1 env.copyMtime))).setFile (tempName it.dst) none,
      ?_, ?_, ?_, ?_, ?_⟩
    · simp only [SyncApplier.applyOne, hc, hst, hrn]
      simp [setFile_self]
    · rw [setFile_ne _ _ _ _ hdt, setFile_self]
      simp
    · rw [setFile_self]
    · show (fs0.mkdirParents it.dst).dirs it.dst.dropLast = true
      exact mkdirParents_dirs_self fs0 it.dst
    · intro q hq1 hq2
      rw [setFile_ne _ _ _ _ hq2, setFile_ne _ _ _ _ hq1,
        setFile_ne _ _ _ _ hq2]
      rfl
  | true =>
    have hut2 : env.utimeFail (tempName it.dst) = none := by simpa using hut
    refine ⟨((((fs0.mkdirParents it.dst).setFile (tempName it.dst)
        (some (DEntry.full m.1 env.copyMtime))).setFile (tempName it.dst)
        (some (DEntry.full m.1 m.2))).setFile it.dst
        (some (DEntry.full m.1 m.2))).setFile (tempName it.dst) none,
      ?_, ?_, ?_, ?_, ?_⟩
    · simp only [SyncApplier.applyOne, hc, hst, hut2, hrn]
      simp [setFile_self]
    · rw [setFile_ne _ _ _ _ hdt, setFile_self]
      simp
    · rw [setFile_self]
    · show (fs0.mkdirParents it.dst).dirs it.dst.dropLast = true
      exact mkdirParents_dirs_self fs0 it.dst
    · intro q hq1 hq2
      rw [setFile_ne _ _ _ _ hq2, setFile_ne _ _ _ _ hq1,
        setFile_ne _ _ _ _ hq2, setFile_ne _ _ _ _ hq2]
      rfl

/-- Facts about the state shipped with any apply-phase error: the failing
item's temporary file has been removed, its final destination is untouched,
and no half-written entry was introduced anywhere. -/
theorem cleanup_state_facts (fs0 : FS) (dst : List String) (base : FS)
    (hfiles : ∀ q, q ≠ tempName dst → base.files q = fs0.files q) :
    (base.removeIfExists (tempName dst)).files (tempName dst) = none ∧
    (base.removeIfExists (tempName dst)).files dst = fs0.files dst ∧
    (∀ q, fs0.files q ≠ some DEntry.broken →
      (base.removeIfExists (tempName dst)).files q ≠ some DEntry.broken) := by
  have hdt : dst ≠ tempName dst := fun hx => tempName_ne dst hx.symm
  refine ⟨removeIfExists_self _ _, ?_, ?_⟩
  · rw [removeIfExists_ne _ _ _ hdt, hfiles dst hdt]
  · intro q hq
    by_cases hqt : q = tempName dst
    · rw [hqt, removeIfExists_self]
      simp
    · rw [removeIfExists_ne _ _ _ hqt, hfiles q hqt]
      exact hq

/-- Whenever one application fails, the state it reports has the temporary
file removed, the final destination untouched, and no half-written entry
introduced. -/
theorem applyOne_error_facts (env : ApplyEnv) (pm : Bool) (it : PlanItem)
    (fs0 : FS) (e : ApplyErr) (fs2 : FS)
    (h : SyncApplier.applyOne env pm it fs0 = Except.error (e, fs2)) :
    fs2.files (tempName it.dst) = none ∧
    fs2.files it.dst = fs0.files it.dst ∧
    (∀ q, fs0.files q ≠ some DEntry.broken →
      fs2.files q ≠ some DEntry.broken) := by
  cases hc : env.copyFail it.src with
  | some e2 =>
    rw [applyOne_copyFail env pm it fs0 e2 hc] at h
    injection h with h2
    have hfs : fs2 = ((fs0.mkdirParents it.dst).setFile (tempName it.dst)
        (some DEntry.broken)).removeIfExists (tempName it.dst) :=
      (congrArg Prod.snd h2).symm
    rw [hfs]
    exact cleanup_state_facts fs0 it.dst _
      (fun q hq => by rw [setFile_ne _ _ _ _ hq]; rfl)
  | none =>
    cases hst : env.srcStat it.src with
    | none =>
      rw [applyOne_srcGone env pm it fs0 hc hst] at h
      injection h with h2
      have hfs : fs2 = ((fs0.mkdirParents it.dst).setFile (tempName it.dst)
          (some DEntry.broken)).removeIfExists (tempName it.dst) :=
        (congrArg Prod.snd h2).symm
      rw [hfs]
      exact cleanup_state_facts fs0 it.dst _
        (fun q hq => by rw [setFile_ne _ _ _ _ hq]; rfl)
    | some m =>
      cases hut : (if pm then env.utimeFail (tempName it.dst) else none) with
      | some e2 =>
        rw [applyOne_utimeFail env pm it fs0 m e2 hc hst hut] at h
        injection h with h2
        have hfs : fs2 = ((fs0.mkdirParents it.dst).setFile (tempName it.dst)
            (some (DEntry.full m.1 env.copyMtime))).removeIfExists
              (tempName it.dst) :=
          (congrArg Prod.snd h2).symm
        rw [hfs]
        exact cleanup_state_facts fs0 it.dst _
          (fun q hq => by rw [setFile_ne _ _ _ _ hq]; rfl)
      | none =>
        cases hrn : env.renameFail it.dst with
        | some e2 =>
          rw [applyOne_renameFail env pm it fs0 m e2 hc hst hut hrn] at h
          injection h with h2
          have hfs : fs2 = ((if pm then
              ((fs0.mkdirParents it.dst).setFile (tempName it.dst)
                (some (DEntry.full m.1 env.copyMtime))).setFile (tempName it.dst)
                (some (DEntry.full m.1 m.2))
            else
              (fs0.mkdirParents it.dst).setFile (tempName it.dst)
                (some (DEntry.full m.1 env.copyMtime))).removeIfExists
              (tempName it.dst)) :=
            (congrArg Prod.snd h2).symm
          rw [hfs]
          refine cleanup_state_facts fs0 it.dst _ ?_
          intro q hq
          cases pm with
          | true =>
            simp only [if_true]
            rw [setFile_ne _ _ _ _ hq, setFile_ne _ _ _ _ hq]
            rfl
          | false =>
            simp only [Bool.false_eq_true, if_false]
            rw [setFile_ne _ _ _ _ hq]
            rfl
        | none =>
          obtain ⟨fs3, hok, _⟩ :=
            applyOne_ok_facts env pm it fs0 m hc hst hut hrn
          rw [hok] at h
          simp at h

/-- Whenever one application succeeds, the source was readable, the
destination holds a complete copy of it, the temporary file is gone, and
nothing else changed. -/
theorem applyOne_ok_inv (env : ApplyEnv) (pm : Bool) (it : PlanItem)
    (fs0 fs1 : FS)
    (h : SyncApplier.applyOne env pm it fs0 = Except.ok fs1) :
    ∃ m, env.srcStat it.src = some m ∧
      fs1.files it.dst =
        some (DEntry.full m.1 (if pm then m.2 else env.copyMtime)) ∧
      fs1.files (tempName it.dst) = none ∧
      (∀ q, q ≠ it.dst → q ≠ tempName it.dst →
        fs1.files q = fs0.files q) := by
  cases hc : env.copyFail it.src with
  | some e2 =>
    rw [applyOne_copyFail env pm it fs0 e2 hc] at h
    simp at h
  | none =>
    cases hst : env.srcStat it.src with
    | none =>
      rw [applyOne_srcGone env pm it fs0 hc hst] at h
      simp at h
    | some m =>
      cases hut : (if pm then env.utimeFail (tempName it.dst) else none) with
      | some e2 =>
        rw [applyOne_utimeFail env pm it fs0 m e2 hc hst hut] at h
        simp at h
      | none =>
        cases hrn : env.renameFail it.dst with
        | some e2 =>
          rw [applyOne_renameFail env pm it fs0 m e2 hc hst hut hrn] at h
          simp at h
        | none =>
          obtain ⟨fs3, hok, hdst, htemp, _, hout⟩ :=
            applyOne_ok_facts env pm it fs0 m hc hst hut hrn
          rw [hok] at h
          injection h with h2
          rw [← h2]
          exact ⟨m, rfl, hdst, htemp, hout⟩

/-- One step of the apply loop on a SKIP or EXCLUDE item. -/
theorem apply_skip_step (env : ApplyEnv) (pm : Bool) (it : PlanItem)
    (fs : FS) (hsk : it.action = "SKIP" ∨ it.action = "EXCLUDE") :
    ∀ zs, SyncApplier.apply env pm (it :: zs) fs =
      SyncApplier.apply env pm zs fs := by
  intro zs
  conv_lhs => unfold SyncApplier.apply
  rw [if_pos hsk]

/-- One step of the apply loop on an applied item. -/
theorem apply_work_step (env : ApplyEnv) (pm : Bool) (it : PlanItem)
    (fs : FS) (hsk : ¬(it.action = "SKIP" ∨ it.action = "EXCLUDE")) :
    ∀ zs, SyncApplier.apply env pm (it :: zs) fs =
      match SyncApplier.applyOne env pm it fs with
      | Except.error ef => Except.error ef
      | Except.ok fs1 => SyncApplier.apply env pm zs fs1 := by
  intro zs
  conv_lhs => unfold SyncApplier.apply
  rw [if_neg hsk]

/-- The apply loop over a concatenation is the sequential composition. -/
theorem apply_append (env : ApplyEnv) (pm : Bool) :
    ∀ (xs ys : List PlanItem) (fs : FS),
      SyncApplier.apply env pm (xs ++ ys) fs =
        (SyncApplier.apply env pm xs fs).bind
          (fun fs2 => SyncApplier.apply env pm ys fs2)
  | [], ys, fs => rfl
  | it :: rest, ys, fs => by
    rw [List.cons_append]
    by_cases hsk : it.action = "SKIP" ∨ it.action = "EXCLUDE"
    · rw [apply_skip_step env pm it fs hsk, apply_skip_step env pm it fs hsk]
      exact apply_append env pm rest ys fs
    · rw [apply_work_step env pm it fs hsk, apply_work_step env pm it fs hsk]
      cases SyncApplier.applyOne env pm it fs with
      | error ef => rfl
      | ok fs1 => exact apply_append env pm rest ys fs1

/-- A successful apply run leaves every path untouched that is neither the
destination nor the temporary path of any applied item. -/
theorem apply_untouched (env : ApplyEnv) (pm : Bool) :
    ∀ (items : List PlanItem) (fs fs2 : FS) (q : List String),
      SyncApplier.apply env pm items fs = Except.ok fs2 →
      (∀ it ∈ items, ¬(it.action = "SKIP" ∨ it.action = "EXCLUDE") →
        it.dst ≠ q ∧ tempName it.dst ≠ q) →
      fs2.files q = fs.files q
  | [], fs, fs2, q, h, _ => by
    injection h with h2
    rw [← h2]
  | it :: rest, fs, fs2, q, h, hup => by
    by_cases hsk : it.action = "SKIP" ∨ it.action = "EXCLUDE"
    · rw [apply_skip_step env pm it fs hsk] at h
      exact apply_untouched env pm rest fs fs2 q h
        (fun j hj => hup j (List.mem_cons_of_mem it hj))
    · rw [apply_work_step env pm it fs hsk] at h
      cases ha : SyncApplier.applyOne env pm it fs with
      | error ef =>
        rw [ha] at h
        simp at h
      | ok fs1 =>
        rw [ha] at h
        obtain ⟨m, _, _, _, hout⟩ := applyOne_ok_inv env pm it fs fs1 ha
        have hq := hup it (List.mem_cons_self it rest) hsk
        have h1 : fs1.files q = fs.files q :=
          hout q hq.1.symm hq.2.symm
        rw [apply_untouched env pm rest fs1 fs2 q h
          (fun j hj => hup j (List.mem_cons_of_mem it hj)), h1]

/-- The apply loop never leaves a half-written entry, in either outcome. -/
theorem apply_clean (env : ApplyEnv) (pm : Bool) :
    ∀ (items : List PlanItem) (fs : FS),
      (∀ q, fs.files q ≠ some DEntry.broken) →
      ((∀ fs2, SyncApplier.apply env pm items fs = Except.ok fs2 →
          ∀ q, fs2.files q ≠ some DEntry.broken) ∧
       (∀ e fs2, SyncApplier.apply env pm items fs = Except.error (e, fs2) →
          ∀ q, fs2.files q ≠ some DEntry.broken))
  | [], fs, hcl => by
    constructor
    · intro fs2 h q
      injection h with h2
      rw [← h2]
      exact hcl q
    · intro e fs2 h
      simp [SyncApplier.apply] at h
  | it :: rest, fs, hcl => by
    by_cases hsk : it.action = "SKIP" ∨ it.action = "EXCLUDE"
    · constructor
      · intro fs2 h
        rw [apply_skip_step env pm it fs hsk] at h
        exact (apply_clean env pm rest fs hcl).1 fs2 h
      · intro e fs2 h
        rw [apply_skip_step env pm it fs hsk] at h
        exact (apply_clean env pm rest fs hcl).2 e fs2 h
    · constructor
      · intro fs2 h
        rw [apply_work_step env pm it fs hsk] at h
        cases ha : SyncApplier.applyOne env pm it fs with
        | error ef =>
          rw [ha] at h
          simp at h
        | ok fs1 =>
          rw [ha] at h
          have hclean1 : ∀ q, fs1.files q ≠ some DEntry.broken := by
            intro q
            obtain ⟨m, _, hdst, htemp, hout⟩ :=
              applyOne_ok_inv env pm it fs fs1 ha
            by_cases h1 : q = it.dst
            · rw [h1, hdst]
              simp
            · by_cases h2 : q = tempName it.dst
              · rw [h2, htemp]
                simp
              · rw [hout q h1 h2]
                exact hcl q
          exact (apply_clean env pm rest fs1 hclean1).1 fs2 h
      · intro e fs2 h
        rw [apply_work_step env pm it fs hsk] at h
        cases ha : SyncApplier.applyOne env pm it fs with
        | error ef =>
          rw [ha] at h
          injection h with h2
          obtain ⟨_, _, hkeep⟩ := applyOne_error_facts env pm it fs ef.1 ef.2
            (by rw [ha])
          intro q
          have h4 : ef.2 = fs2 := congrArg Prod.snd h2
          rw [← h4]
          exact hkeep q (hcl q)
        | ok fs1 =>
          rw [ha] at h
          have hclean1 : ∀ q, fs1.files q ≠ some DEntry.broken := by
            intro q
            obtain ⟨m, _, hdst, htemp, hout⟩ :=
              applyOne_ok_inv env pm it fs fs1 ha
            by_cases h1 : q = it.dst
            · rw [h1, hdst]
              simp
            · by_cases h2 : q = tempName it.dst
              · rw [h2, htemp]
                simp
              · rw [hout q h1 h2]
                exact hcl q
          exact (apply_clean env pm rest fs1 hclean1).2 e fs2 h

/-! ## Claims C4 and C7 -/

/-- C4: SKIP/EXCLUDE items are no-ops; a failing item aborts the remaining
items, re-raising the original error with its temporary file deleted and
the final destination untouched (so no partially-written file is ever
present under a final destination name, in either outcome, as the
half-written-entry invariant shows); a successful item has created the
destination's parents, left the complete copy under the final name (with
the source's timestamp when preservation is on) and removed the temporary
file. -/
theorem C4_atomic_apply (env : ApplyEnv) (pm : Bool) :
    (∀ (it : PlanItem) (rest : List PlanItem) (fs : FS),
      (it.action = "SKIP" ∨ it.action = "EXCLUDE") →
      SyncApplier.apply env pm (it :: rest) fs =
        SyncApplier.apply env pm rest fs) ∧
    (∀ (it : PlanItem) (rest : List PlanItem) (fs fs2 : FS) (e : ApplyErr),
      ¬(it.action = "SKIP" ∨ it.action = "EXCLUDE") →
      SyncApplier.applyOne env pm it fs = Except.error (e, fs2) →
      SyncApplier.apply env pm (it :: rest) fs = Except.error (e, fs2)) ∧
    (∀ (it : PlanItem) (fs fs2 : FS) (e : ApplyErr),
      SyncApplier.applyOne env pm it fs = Except.error (e, fs2) →
      fs2.files (tempName it.dst) = none ∧
      fs2.files it.dst = fs.files it.dst) ∧
    (∀ (it : PlanItem) (fs : FS) (m : Nat × Int),
      env.srcStat it.src = some m → env.copyFail it.src = none →
      (if pm then env.utimeFail (tempName it.dst) else none) = none →
      env.renameFail it.dst = none →
      ∃ fs2, SyncApplier.applyOne env pm it fs = Except.ok fs2 ∧
        fs2.files it.dst =
          some (DEntry.full m.1 (if pm then m.2 else env.copyMtime)) ∧
        fs2.files (tempName it.dst) = none ∧
        fs2.dirs it.dst.dropLast = true) ∧
    (∀ (items : List PlanItem) (fs : FS),
      (∀ q, fs.files q ≠ some DEntry.broken) →
      ((∀ fs2, SyncApplier.apply env pm items fs = Except.ok fs2 →
          ∀ q, fs2.files q ≠ some DEntry.broken) ∧
       (∀ e fs2, SyncApplier.apply env pm items fs = Except.error (e, fs2) →
          ∀ q, fs2.files q ≠ some DEntry.broken))) := by
  refine ⟨?_, ?_, ?_, ?_, ?_⟩
  · intro it rest fs hsk
    exact apply_skip_step env pm it fs hsk rest
  · intro it rest fs fs2 e hact h
    rw [apply_work_step env pm it fs hact rest, h]
  · intro it fs fs2 e h
    obtain ⟨h1, h2, _⟩ := applyOne_error_facts env pm it fs e fs2 h
    exact ⟨h1, h2⟩
  · intro it fs m hst hc hut hrn
    obtain ⟨fs2, hok, hdst, htemp, hdirs, _⟩ :=
      applyOne_ok_facts env pm it fs m hc hst hut hrn
    exact ⟨fs2, hok, hdst, htemp, hdirs⟩
  · intro items fs hcl
    exact apply_clean env pm items fs hcl

/-- Witness for C4: applying the sample ADD item in the clean environment
succeeds, creating the destination with the source's size and mtime, with
no temporary file left and the parent directory created. -/
theorem C4_atomic_apply_witness :
    ∃ fs2, SyncApplier.applyOne cleanEnv true sampleAddItem emptyFS =
        Except.ok fs2 ∧
      fs2.files ["DST", "a.txt"] = some (DEntry.full 5 100) ∧
      fs2.files ["DST", "a.txt.part"] = none ∧
      fs2.dirs ["DST"] = true :=
  (C4_atomic_apply cleanEnv true).2.2.2.1 sampleAddItem emptyFS (5, 100)
    rfl rfl rfl rfl

/-- C7 (amended): after one successful apply with mtime preservation on,
the planner's decision procedure, re-run for a previously applied
ADD/UPDATE item against the updated destination, yields SKIP
"same size+mtime" — provided no later applied item's destination path or
temporary path (its destination suffixed with ".part") equals this item's
destination path. The proviso is necessary: a destination named `b.part`
is the temporary path of a sibling destination named `b`, and applying `b`
afterwards overwrites and then (via `os.replace`) removes the previously
applied `b.part`, which re-plans as ADD. Under the proviso, the copy
reproduces the source's size exactly and carries the source's timestamp,
which is within the 2-second tolerance. -/
theorem C7_decision_idempotence (env : ApplyEnv)
    (items pre post : List PlanItem) (item : PlanItem) (fs fs2 : FS)
    (m : Nat × Int)
    (hitems : items = pre ++ item :: post)
    (happly : SyncApplier.apply env true items fs = Except.ok fs2)
    (hact : item.action = "ADD" ∨ item.action = "UPDATE")
    (hst : env.srcStat item.src = some m)
    (hpost : ∀ j ∈ post, ¬(j.action = "SKIP" ∨ j.action = "EXCLUDE") →
      j.dst ≠ item.dst ∧ tempName j.dst ≠ item.dst) :
    FS.toDstFS fs2 item.dst = some (FileStat.ok m.1 m.2) ∧
    SyncPlanner.decide_action (FileStat.ok m.1 m.2)
      (FS.toDstFS fs2 item.dst) = ("SKIP", "same size+mtime") := by
  subst hitems
  rw [apply_append env true pre (item :: post) fs] at happly
  cases hpre : SyncApplier.apply env true pre fs with
  | error ef =>
    rw [hpre] at happly
    have h2 : (Except.error ef : Except (ApplyErr × FS) FS) =
        Except.ok fs2 := happly
    simp at h2
  | ok fsA =>
    rw [hpre] at happly
    have happly2 : SyncApplier.apply env true (item :: post) fsA =
        Except.ok fs2 := happly
    have hnsk : ¬(item.action = "SKIP" ∨ item.action = "EXCLUDE") := by
      rcases hact with h | h <;> rw [h] <;> decide
    rw [apply_work_step env true item fsA hnsk post] at happly2
    cases hone : SyncApplier.applyOne env true item fsA with
    | error ef =>
      rw [hone] at happly2
      simp at happly2
    | ok fsB =>
      rw [hone] at happly2
      obtain ⟨m2, hst2, hdst, htemp, _⟩ :=
        applyOne_ok_inv env true item fsA fsB hone
      have hm : m2 = m := by
        rw [hst] at hst2
        exact (Option.some.inj hst2).symm
      subst hm
      have hfinal : fs2.files item.dst = fsB.files item.dst :=
        apply_untouched env true post fsB fs2 item.dst happly2 hpost
      have hval : fs2.files item.dst = some (DEntry.full m2.1 m2.2) := by
        rw [hfinal, hdst]
        simp
      constructor
      · show (fs2.files item.dst).map DEntry.toStat =
          some (FileStat.ok m2.1 m2.2)
        rw [hval]
        rfl
      · show SyncPlanner.decide_action (FileStat.ok m2.1 m2.2)
          ((fs2.files item.dst).map DEntry.toStat) = ("SKIP", "same size+mtime")
        rw [hval]
        have h2 : (some (DEntry.full m2.1 m2.2)).map DEntry.toStat =
            some (FileStat.ok m2.1 m2.2) := rfl
        rw [h2]
        exact (decide_action_skip_iff m2.1 m2.2 m2.1 m2.2).mpr ⟨rfl, by simp⟩

/-- Witness for C7: after applying the sample ADD item, re-deciding it
against the applied destination yields SKIP. -/
theorem C7_decision_idempotence_witness :
    SyncApplier.apply cleanEnv true [sampleAddItem] emptyFS =
      Except.ok sampleAppliedFS ∧
    FS.toDstFS sampleAppliedFS ["DST", "a.txt"] = some (FileStat.ok 5 100) ∧
    SyncPlanner.decide_action (FileStat.ok 5 100)
      (FS.toDstFS sampleAppliedFS ["DST", "a.txt"]) =
      ("SKIP", "same size+mtime") := by
  have h1 : SyncApplier.apply cleanEnv true [sampleAddItem] emptyFS =
      Except.ok sampleAppliedFS := rfl
  obtain ⟨h2, h3⟩ := C7_decision_idempotence cleanEnv [sampleAddItem] [] []
    sampleAddItem emptyFS sampleAppliedFS (5, 100) rfl h1 (Or.inl rfl) rfl
    (fun j hj => absurd hj (List.not_mem_nil j))
  exact ⟨h1, h2, h3⟩

/-- Counterexample to C7 as originally stated: the sibling source files
`b.part` and `b` both plan as ADD against an empty destination, and the
apply of both items succeeds; but applying `b` uses the temporary path
`Path("b").with_suffix("" + ".part")`, i.e. the destination of `b.part`,
so `shutil.copyfile` overwrites the previously applied `b.part` and
`os.replace` then moves it onto `b`, deleting it. Re-running the planner
against the applied destination classifies `b.part` as ADD "missing"
again, not SKIP, even though it was previously ADDed and the apply
succeeded. -/
theorem C7_temp_collision_counterexample :
    planDir plainP emptyDst [] collideSrcTree =
      [⟨"ADD", ["SRC", "b.part"], ["DST", "b.part"], "missing"⟩,
       ⟨"ADD", ["SRC", "b"], ["DST", "b"], "missing"⟩] ∧
    SyncApplier.apply collideEnv true
        (planDir plainP emptyDst [] collideSrcTree) emptyFS =
      Except.ok collideAppliedFS ∧
    FS.toDstFS collideAppliedFS ["DST", "b.part"] = none ∧
    planDir plainP (FS.toDstFS collideAppliedFS) [] collideSrcTree =
      [⟨"ADD", ["SRC", "b.part"], ["DST", "b.part"], "missing"⟩,
       ⟨"SKIP", ["SRC", "b"], ["DST", "b"], "same size+mtime"⟩] :=
  ⟨by decide, rfl, rfl, by decide⟩
